import Mathlib

namespace SnakeGame

/-!
Verification development for the turn-based snake game core.

The repository keeps several historical revisions of the same core.  The
definitions below shallowly embed:

* the latest revision of the core state machine
  (src/game_state/game_state.rs together with src/game_state/state/board.rs,
  src/game_state/state/state.rs and src/game_state/state/value_objects.rs),
  as plain Lean functions on an explicit state record; and
* the velocity/status revision (src/lib.rs), whose game state carries a
  Status field and a velocity, with its set_direction and iterate_turn.

Rust panics (expect / assert / invariant failures) are modelled by Option:
a function returns none exactly when the source would abort.  The ChaCha8
random generator is abstracted as a deterministic stream of naturals; the
single use site draws gen_range(0..n), modelled as (stream value) % n.
Calls to the View observer (view.swap_cell) are recorded in an events list
carried by the state, in call order.
-/

/-- Compass direction (src/data_transfer_objects.rs). -/

inductive Direction
  | Right
  | Up
  | Left
  | Down
deriving DecidableEq, Repr

/-- Plane of a direction (src/game_state/state/value_objects.rs). -/

inductive Plane
  | Horizontal
  | Vertical
deriving DecidableEq, Repr

def Direction.getPlane : Direction → Plane
  | .Right => .Horizontal
  | .Up => .Vertical
  | .Left => .Horizontal
  | .Down => .Vertical

/-- Unit displacement of a direction, as a signed (row, column) delta
(Direction::as_velocity in src/game_state/state/value_objects.rs). -/

def Direction.asVelocity : Direction → Int × Int
  | .Right => (0, 1)
  | .Up => (-1, 0)
  | .Left => (0, -1)
  | .Down => (1, 0)

def Direction.opposite : Direction → Direction
  | .Right => .Left
  | .Up => .Down
  | .Left => .Right
  | .Down => .Up

/-- Snake-path metadata of a snake cell (src/data_transfer_objects.rs).
entry points toward the tail neighbour, exit toward the head neighbour. -/

structure Path where
  entry : Option Direction
  exit : Option Direction
deriving DecidableEq, Repr

/-- One grid slot (src/game_state/state/value_objects.rs): an empty or food
cell carries its back-reference index into the corresponding auxiliary
list; a snake cell carries path metadata. -/

inductive Cell
  | Empty (i : Nat)
  | Foods (i : Nat)
  | Snake (p : Path)
deriving DecidableEq, Repr

def Cell.isSnakeCell : Cell → Bool
  | .Snake _ => true
  | _ => false

def Cell.isEmptyCell : Cell → Bool
  | .Empty _ => true
  | _ => false

def Cell.isFoodsCell : Cell → Bool
  | .Foods _ => true
  | _ => false

/-- Cell as reported to the View (src/data_transfer_objects.rs dto::Cell). -/

inductive DtoCell
  | Empty
  | Foods
  | Snake (p : Path)
deriving DecidableEq, Repr

def Cell.toDto : Cell → DtoCell
  | .Empty _ => .Empty
  | .Foods _ => .Foods
  | .Snake p => .Snake p

/-- Turn outcome (src/data_transfer_objects.rs dto::Status). -/

inductive Status
  | Ongoing
  | Over (is_won : Bool)
deriving DecidableEq, Repr

/-- Board position (row, column), src Position(usize, usize). -/

abbrev Position := Nat × Nat

/-- The board of src/game_state/state/board.rs: an N_ROWS x N_COLS grid of
cells.  The const-generic dimensions are carried as fields. -/

structure Board where
  nRows : Nat
  nCols : Nat
  cells : List (List Cell)
deriving DecidableEq, Repr

/-- Board::at - indexing self.0[i][j]. -/

def Board.at' (b : Board) (p : Position) : Cell :=
  (b.cells.getD p.1 []).getD p.2 (Cell.Empty 0)

/-- Writing through Board::at_mut - replace the cell at position p. -/

def Board.setCell (b : Board) (p : Position) (c : Cell) : Board :=
  { b with cells := b.cells.set p.1 ((b.cells.getD p.1 []).set p.2 c) }

/-- usize::checked_add_signed: none exactly when the sum would be negative
(the wrap below usize::MIN that the source handles with unwrap_or). -/

def checkedAddSigned (x : Nat) (d : Int) : Option Nat :=
  if (x : Int) + d < 0 then none else some ((x : Int) + d).toNat

/-- Board::move_in: displace a position by a direction, each axis falling
back to bound - DEFAULT_MAGNITUDE on underflow and reduced mod its bound. -/

def Board.moveIn (b : Board) (p : Position) (d : Direction) : Position :=
  let v := d.asVelocity
  (((checkedAddSigned p.1 v.1).getD (b.nRows - 1)) % b.nRows,
   ((checkedAddSigned p.2 v.2).getD (b.nCols - 1)) % b.nCols)

/-- Deterministic random stream standing in for the seeded ChaCha8Rng:
seq is the stream of raw draws, idx the number of draws consumed. -/

structure Rng where
  seq : Nat → Nat
  idx : Nat

/-- rng.gen_range(0..n): the next raw draw reduced into [0, n). -/

def Rng.genRange (r : Rng) (n : Nat) : Nat × Rng :=
  (r.seq r.idx % n, { r with idx := r.idx + 1 })

/-- One recorded View::swap_cell(position, old, new) notification. -/

structure ViewEvent where
  pos : Position
  old : DtoCell
  new : DtoCell
deriving DecidableEq, Repr

/-- The aggregate state of src/game_state/state/state.rs (State) plus the
recorded View notifications.  snake is ordered front = head, back = tail. -/

structure State where
  board : Board
  empty : List Position
  foods : List Position
  snake : List Position
  rng : Rng
  events : List ViewEvent

instance : Inhabited State :=
  ⟨{ board := ⟨0, 0, []⟩, empty := [], foods := [], snake := [],
     rng := ⟨fun _ => 0, 0⟩, events := [] }⟩

/-- Vec::swap_remove(i): remove index i by swapping in the last element;
none when i is out of bounds (the source panics there). -/

def swapRemove (l : List α) (i : Nat) : Option (α × List α) :=
  match l[i]? with
  | none => none
  | some x => some (x, (l.set i (l.getLast?.getD x)).dropLast)

/-- GameState::check_is_won_status (src/game_state/game_state.rs). -/

def checkIsWonStatus (s : State) : Status :=
  if s.foods.isEmpty && s.empty.isEmpty then .Over true else .Ongoing

/-- GameState::remove_last_tail: pop the tail off the body, demand its cell
is Snake with entry = none, convert it to Empty at index empty.len() and
push it onto the empty list. -/

def removeLastTail (s : State) : Option State :=
  match s.snake.getLast? with
  | none => none
  | some lastTail =>
    let old := (s.board.at' lastTail).toDto
    match s.board.at' lastTail with
    | Cell.Snake ⟨none, _⟩ =>
      some { s with
        snake := s.snake.dropLast,
        board := s.board.setCell lastTail (Cell.Empty s.empty.length),
        empty := s.empty ++ [lastTail],
        events := s.events ++ [⟨lastTail, old, DtoCell.Empty⟩] }
    | _ => none

/-- GameState::update_next_tail: clear the entry link of the new tail
(back of the body), keeping its exit. -/

def updateNextTail (s : State) : Option State :=
  match s.snake.getLast? with
  | none => none
  | some nextTail =>
    match s.board.at' nextTail with
    | Cell.Snake path =>
      some { s with
        board := s.board.setCell nextTail (Cell.Snake ⟨none, path.exit⟩),
        events := s.events ++
          [⟨nextTail, (Cell.Snake path).toDto, (Cell.Snake ⟨none, path.exit⟩).toDto⟩] }
    | _ => none

/-- GameState::remove_empty: swap-remove next_head out of the empty list at
empty_index (asserting it really was there) and, if another position moved
into the vacated slot, patch that cell's back-reference index. -/

def removeEmpty (nextHead : Position) (emptyIndex : Nat) (s : State) : Option State :=
  match swapRemove s.empty emptyIndex with
  | none => none
  | some (removed, rest) =>
    if removed = nextHead then
      if h : emptyIndex < rest.length then
        some { s with
          empty := rest,
          board := s.board.setCell rest[emptyIndex] (Cell.Empty emptyIndex) }
      else
        some { s with empty := rest }
    else none

/-- GameState::remove_foods: the same removal protocol on the foods list. -/

def removeFoods (nextHead : Position) (foodsIndex : Nat) (s : State) : Option State :=
  match swapRemove s.foods foodsIndex with
  | none => none
  | some (removed, rest) =>
    if removed = nextHead then
      if h : foodsIndex < rest.length then
        some { s with
          foods := rest,
          board := s.board.setCell rest[foodsIndex] (Cell.Foods foodsIndex) }
      else
        some { s with foods := rest }
    else none

/-- GameState::insert_snake_head: remove next_head from whichever auxiliary
list its cell names, make the cell the new head segment and push it onto
the front of the body. -/

def insertSnakeHead (nextHead : Position) (entry : Option Direction) (s : State) :
    Option State :=
  let old := (s.board.at' nextHead).toDto
  let step :=
    match s.board.at' nextHead with
    | Cell.Empty emptyIndex => removeEmpty nextHead emptyIndex s
    | Cell.Foods foodsIndex => removeFoods nextHead foodsIndex s
    | Cell.Snake _ => none
  match step with
  | none => none
  | some s1 =>
    some { s1 with
      board := s1.board.setCell nextHead (Cell.Snake ⟨entry, none⟩),
      snake := nextHead :: s1.snake,
      events := s1.events ++ [⟨nextHead, old, (Cell.Snake ⟨entry, none⟩).toDto⟩] }

/-- GameState::update_last_head: give the old head (front of the body,
whose exit must still be none) an exit toward the move direction. -/

def updateLastHead (direction : Direction) (s : State) : Option State :=
  match s.snake.head? with
  | none => none
  | some lastHead =>
    match s.board.at' lastHead with
    | Cell.Snake ⟨entry, none⟩ =>
      some { s with
        board := s.board.setCell lastHead (Cell.Snake ⟨entry, some direction⟩),
        events := s.events ++
          [⟨lastHead, (Cell.Snake ⟨entry, none⟩).toDto,
            (Cell.Snake ⟨entry, some direction⟩).toDto⟩] }
    | _ => none

/-- GameState::insert_food: when an empty cell remains, draw a uniform
index into the empty list, swap-remove that position (patching the moved
back-reference), and append it to the foods list as a food cell.  When no
empty cell remains the call reports MaxFoods and changes nothing; the
callers on the turn path ignore that result. -/

def insertFood (s : State) : State :=
  if s.empty.isEmpty then s
  else
    let drawn := s.rng.genRange s.empty.length
    match swapRemove s.empty drawn.1 with
    | none => s
    | some (position, rest) =>
      let patched :=
        if h : drawn.1 < rest.length then
          s.board.setCell rest[drawn.1] (Cell.Empty drawn.1)
        else s.board
      { s with
        board := patched.setCell position (Cell.Foods s.foods.length),
        empty := rest,
        foods := s.foods ++ [position],
        rng := drawn.2,
        events := s.events ++ [⟨position, DtoCell.Empty, DtoCell.Foods⟩] }

/-- GameState::iterate_turn (src/game_state/game_state.rs): one game step
for the direction yielded by the controller.  Returns none exactly when
the source would abort on a broken invariant. -/

def iterateTurn (direction : Direction) (s : State) : Option (Status × State) :=
  match s.snake.head? with
  | none => none
  | some lastHead =>
    let nextHead := s.board.moveIn lastHead direction
    match s.board.at' nextHead with
    | Cell.Empty _ =>
      match removeLastTail s with
      | none => none
      | some s1 =>
        if s1.snake.isEmpty then
          match insertSnakeHead nextHead none s1 with
          | none => none
          | some s2 => some (.Ongoing, s2)
        else
          match updateNextTail s1 with
          | none => none
          | some s2 =>
            match updateLastHead direction s2 with
            | none => none
            | some s3 =>
              match insertSnakeHead nextHead (some direction.opposite) s3 with
              | none => none
              | some s4 => some (.Ongoing, s4)
    | Cell.Foods _ =>
      match updateLastHead direction s with
      | none => none
      | some s1 =>
        match insertSnakeHead nextHead (some direction.opposite) s1 with
        | none => none
        | some s2 =>
          let s3 := insertFood s2
          some (checkIsWonStatus s3, s3)
    | Cell.Snake _ => some (.Over false, s)

/-! ### Board invariants -/

/-- Dimension well-formedness of a board: the stored cell grid really has
the shape announced by the const-generic dimensions, which are positive
(Options::build only constructs boards with room for the snake). -/

def BoardWF (b : Board) : Prop :=
  0 < b.nRows ∧ 0 < b.nCols ∧ b.cells.length = b.nRows ∧
    ∀ r ∈ b.cells, r.length = b.nCols

instance (b : Board) : Decidable (BoardWF b) := by
  unfold BoardWF; infer_instance

/-- A position lies on the board. -/

def InBounds (b : Board) (p : Position) : Prop :=
  p.1 < b.nRows ∧ p.2 < b.nCols

instance (b : Board) (p : Position) : Decidable (InBounds b p) := by
  unfold InBounds; infer_instance

/-! ### Auxiliary-list invariants (State::is_valid documentation,
src/game_state/state/state.rs) -/

/-- Back-reference invariant of the empty list: the cell at empty[i] is
Empty(i). -/

def EmptyInv (s : State) : Prop :=
  ∀ i (h : i < s.empty.length), s.board.at' s.empty[i] = Cell.Empty i

/-- Back-reference invariant of the foods list. -/

def FoodsInv (s : State) : Prop :=
  ∀ i (h : i < s.foods.length), s.board.at' s.foods[i] = Cell.Foods i

/-- Every position of the snake body holds a snake cell. -/

def SnakeInv (s : State) : Prop :=
  ∀ p ∈ s.snake, (s.board.at' p).isSnakeCell = true

/-- The board invariants a run of the game maintains: a well-formed grid,
both back-reference invariants, snake cells under the body, all listed
positions on the board, and a duplicate-free body. -/

def Valid (s : State) : Prop :=
  BoardWF s.board ∧ EmptyInv s ∧ FoodsInv s ∧ SnakeInv s ∧
    (∀ p ∈ s.empty, InBounds s.board p) ∧
    (∀ p ∈ s.foods, InBounds s.board p) ∧
    (∀ p ∈ s.snake, InBounds s.board p) ∧
    s.snake.Nodup

instance (s : State) : Decidable (EmptyInv s) := by
  unfold EmptyInv; infer_instance

instance (s : State) : Decidable (FoodsInv s) := by
  unfold FoodsInv; infer_instance

instance (s : State) : Decidable (SnakeInv s) := by
  unfold SnakeInv; infer_instance

instance (s : State) : Decidable (Valid s) := by
  unfold Valid; infer_instance

/-- States reachable from s0 by iterate_turn steps. -/

inductive ReachableFrom (s0 : State) : State → Prop
  | refl : ReachableFrom s0 s0
  | step {s : State} {d : Direction} {st : Status} {s' : State} :
      ReachableFrom s0 s → iterateTurn d s = some (st, s') → ReachableFrom s0 s'

/-! ### The partition count: empty + foods + snake -/

/-- Number of positions carried by the three auxiliary structures. -/

def occupancy (s : State) : Nat :=
  s.empty.length + s.foods.length + s.snake.length

/-! ### Construction: Options::build (src/game_state/options.rs) over the
default board (src/game_state/state/board.rs) and State::new
(src/game_state/state/state.rs) -/

/-- Construction-time error (src/game_state/options.rs). -/

structure InvalidOptions where
deriving DecidableEq, Repr

/-- Requested dimensions (the const generics N_ROWS, N_COLS), food count
and the seeded random stream the Seeder provides. -/

structure Options where
  nRows : Nat
  nCols : Nat
  nFoods : Nat
  seq : Nat → Nat

/-- Value of the source's running empty_index counter at cell (i, j) of the
default board: the number of non-center cells strictly before (i, j) in
row-major order (the counter increments at every non-center cell). -/

def defaultEmptyIndex (nR nC i j : Nat) : Nat :=
  if (nR / 2) * nC + nC / 2 < i * nC + j then i * nC + j - 1 else i * nC + j

/-- Cell (i, j) of Board::default: the single snake segment at the center,
every other cell Empty with the running counter as index. -/

def defaultCell (nR nC i j : Nat) : Cell :=
  if i = nR / 2 ∧ j = nC / 2 then Cell.Snake ⟨none, none⟩
  else Cell.Empty (defaultEmptyIndex nR nC i j)

/-- Board::default. -/

def defaultBoard (nR nC : Nat) : Board :=
  { nRows := nR, nCols := nC,
    cells := (List.range nR).map fun i =>
      (List.range nC).map fun j => defaultCell nR nC i j }

/-- Board::get_empty: positions of all empty cells in row-major order. -/

def Board.getEmpty (b : Board) : List Position :=
  b.cells.enum.flatMap fun ir =>
    (ir.2.enum.filter fun jc => jc.2.isEmptyCell).map fun jc => (ir.1, jc.1)

/-- Board::get_foods. -/

def Board.getFoods (b : Board) : List Position :=
  b.cells.enum.flatMap fun ir =>
    (ir.2.enum.filter fun jc => jc.2.isFoodsCell).map fun jc => (ir.1, jc.1)

/-- A snake cell with no exit marks the head. -/

def Cell.isHeadCell : Cell → Bool
  | .Snake ⟨_, none⟩ => true
  | _ => false

/-- Board::find_snake_head: first position in row-major order whose cell is
Snake with exit = none. -/

def Board.findSnakeHead (b : Board) : Option Position :=
  (b.cells.enum.flatMap fun ir =>
    (ir.2.enum.filter fun jc => jc.2.isHeadCell).map fun jc =>
      ((ir.1, jc.1) : Position)).head?

/-- The entry-following loop of Board::get_snake, with explicit fuel: the
source loop does not terminate on a cyclic entry-link structure, which the
embedding reports as none once the fuel is exhausted. -/

def Board.getSnakeAux (b : Board) : Nat → Position → List Position → Option (List Position)
  | 0, _, _ => none
  | fuel + 1, p, acc =>
    match b.at' p with
    | Cell.Snake ⟨some dir, _⟩ => b.getSnakeAux fuel (b.moveIn p dir) (acc ++ [b.moveIn p dir])
    | _ => some acc

/-- Board::get_snake: locate the head and walk the entry links; none when
the source would abort (no head) or loop forever (fuel out: more steps
than cells on the board). -/

def Board.getSnake (b : Board) : Option (List Position) :=
  match b.findSnakeHead with
  | none => none
  | some p => b.getSnakeAux (b.nRows * b.nCols + 1) p [p]

/-- State::new: hydrate the auxiliary lists from a raw board. -/

def State.new (b : Board) (rng : Rng) : Option State :=
  match b.getSnake with
  | none => none
  | some snake =>
    some { board := b, empty := b.getEmpty, foods := b.getFoods,
           snake := snake, rng := rng, events := [] }

/-- Options::add_foods: n_foods insert_food calls, each required to
succeed (the source expects room for foods). -/

def addFoods : Nat → State → Option State
  | 0, s => some s
  | n + 1, s => if s.empty.isEmpty then none else addFoods n (insertFood s)

/-- Options::is_valid: area() >= n_non_empty(), with n_non_empty the
requested food count plus the single initial snake segment. -/

def Options.IsValid (o : Options) : Prop :=
  o.nFoods + 1 ≤ o.nRows * o.nCols

instance (o : Options) : Decidable o.IsValid := by
  unfold Options.IsValid; infer_instance

/-- GameState::from_options: default board, hydrate, then stock foods. -/

def Options.fromOptions (o : Options) : Option State :=
  match State.new (defaultBoard o.nRows o.nCols) ⟨o.seq, 0⟩ with
  | none => none
  | some gs => addFoods o.nFoods gs

/-- Options::build: the sole entry point; rejects invalid options. -/

def Options.build (o : Options) : Except InvalidOptions (Option State) :=
  if o.IsValid then .ok o.fromOptions else .error ⟨⟩

/-! ### The velocity/status revision of the core (src/lib.rs): a GameState
that carries a Status field and a velocity set through set_direction; its
iterate_turn refuses to advance a finished game (GameIsOver).  This is the
revision driven by src/main.rs. -/

namespace Lib

/-- Already-over signal (src/lib.rs GameIsOver). -/
structure GameIsOver where
deriving DecidableEq, Repr

/-- Rejected heading change (src/lib.rs InvalidDirection). -/
structure InvalidDirection where
deriving DecidableEq, Repr

/-- Grid slot with back-reference metadata (src/lib.rs CellWithMetadata). -/
inductive CellWithMetadata
  | Snake
  | Empty (i : Nat)
  | Food (i : Nat)
deriving DecidableEq, Repr

/-- Velocity::is_vertical. -/
def isVertical (v : Int × Int) : Bool := v.1 != 0 && v.2 == 0

/-- Velocity::is_moving. -/
def isMoving (v : Int × Int) : Bool := v.1 != 0 || v.2 != 0

/-- Velocity::from_direction, DEFAULT_MAGNITUDE = 1. -/
def fromDirection : Direction → Int × Int
  | .Up => (-1, 0)
  | .Left => (0, -1)
  | .Right => (0, 1)
  | .Down => (1, 0)

/-- The GameState of src/lib.rs; options is flattened to the two fields
the turn logic reads (shape and n_foods), and the Array2 board is a row
list. -/
structure GameState where
  shape : Nat × Nat
  nFoods : Nat
  status : Status
  velocity : Int × Int
  board : List (List CellWithMetadata)
  snake : List Position
  empty : List Position
  foods : List Position
  rng : Rng

instance : Inhabited GameState :=
  ⟨{ shape := (0, 0), nFoods := 0, status := .Ongoing, velocity := (0, 0),
     board := [], snake := [], empty := [], foods := [],
     rng := ⟨fun _ => 0, 0⟩ }⟩

/-- Reading self.board[position]. -/
def boardAt (b : List (List CellWithMetadata)) (p : Position) : CellWithMetadata :=
  (b.getD p.1 []).getD p.2 (CellWithMetadata.Empty 0)

/-- Writing self.board[position]. -/
def boardSet (b : List (List CellWithMetadata)) (p : Position)
    (c : CellWithMetadata) : List (List CellWithMetadata) :=
  b.set p.1 ((b.getD p.1 []).set p.2 c)

/-- GameState::set_direction: reject a heading whose verticality matches
the current one while the snake is moving; otherwise adopt it. -/
def setDirection (direction : Direction) (s : GameState) :
    Except InvalidDirection Unit × GameState :=
  let velocity := fromDirection direction
  if isMoving s.velocity && (isVertical velocity == isVertical s.velocity) then
    (.error ⟨⟩, s)
  else
    (.ok (), { s with velocity := velocity })

/-- GameState::get_new_snake_head: current head displaced by the velocity,
each axis wrapping toroidally; none when the snake is empty (the source
expects a non-zero length snake). -/
def getNewSnakeHead (s : GameState) : Option Position :=
  s.snake.head?.map fun h =>
    (((checkedAddSigned h.1 s.velocity.1).getD (s.shape.1 - 1)) % s.shape.1,
     ((checkedAddSigned h.2 s.velocity.2).getD (s.shape.2 - 1)) % s.shape.2)

/-- GameState::remove_empty: swap-remove and patch; returns the removed
position. -/
def removeEmpty (i : Nat) (s : GameState) : Option (Position × GameState) :=
  match swapRemove s.empty i with
  | none => none
  | some (position, rest) =>
    if h : i < rest.length then
      some (position,
        { s with
          empty := rest,
          board := boardSet s.board rest[i] (CellWithMetadata.Empty i) })
    else
      some (position, { s with empty := rest })

/-- GameState::remove_foods: swap-remove and patch on the foods list. -/
def removeFoods (i : Nat) (s : GameState) : Option GameState :=
  match swapRemove s.foods i with
  | none => none
  | some (_, rest) =>
    if h : i < rest.length then
      some
        { s with
          foods := rest,
          board := boardSet s.board rest[i] (CellWithMetadata.Food i) }
    else
      some { s with foods := rest }

/-- GameState::pop_snake: tail becomes an empty cell pushed at the end of
the empty list. -/
def popSnake (s : GameState) : Option GameState :=
  match s.snake.getLast? with
  | none => none
  | some tail =>
    some
      { s with
        snake := s.snake.dropLast,
        board := boardSet s.board tail (CellWithMetadata.Empty s.empty.length),
        empty := s.empty ++ [tail] }

/-- GameState::push_snake. -/
def pushSnake (head : Position) (s : GameState) : GameState :=
  { s with board := boardSet s.board head CellWithMetadata.Snake,
           snake := head :: s.snake }

/-- GameState::push_foods. -/
def pushFoods (position : Position) (s : GameState) : GameState :=
  { s with board := boardSet s.board position (CellWithMetadata.Food s.foods.length),
           foods := s.foods ++ [position] }

/-- GameState::add_food: none models the max-foods panic; the Bool is
whether a food was placed (false = FoodCannotBeAdded, tolerated). -/
def addFood (s : GameState) : Option (GameState × Bool) :=
  if s.nFoods ≤ s.foods.length then none
  else if s.empty.isEmpty then some (s, false)
  else
    let drawn := s.rng.genRange s.empty.length
    match removeEmpty drawn.1 { s with rng := drawn.2 } with
    | none => none
    | some (position, s1) => some (pushFoods position s1, true)

/-- GameState::update_for_empty. -/
def updateForEmpty (i : Nat) (s : GameState) : Option GameState :=
  match getNewSnakeHead s with
  | none => none
  | some head =>
    match removeEmpty i s with
    | none => none
    | some (_, s1) =>
      match popSnake s1 with
      | none => none
      | some s2 => some (pushSnake head s2)

/-- GameState::update_for_foods.  Note the source pushes the new head onto
the body without rewriting its board cell. -/
def updateForFoods (i : Nat) (s : GameState) : Option GameState :=
  match removeFoods i s with
  | none => none
  | some s1 =>
    match addFood s1 with
    | none => none
    | some (s2, _) =>
      match getNewSnakeHead s2 with
      | none => none
      | some head => some { s2 with snake := head :: s2.snake }

/-- GameState::is_won. -/
def isWon (s : GameState) : Bool := s.empty.isEmpty && s.foods.isEmpty

/-- GameState::end_game. -/
def endGame (s : GameState) : GameState :=
  { s with status := .Over (isWon s) }

/-- GameState::check_status. -/
def checkStatus (s : GameState) : Except GameIsOver Unit :=
  match s.status with
  | .Ongoing => .ok ()
  | .Over _ => .error ⟨⟩

/-- GameState::iterate_turn (src/lib.rs): refuse when the game is already
over, do nothing until a direction was set, otherwise advance one step. -/
def iterateTurn (s : GameState) : Option (Except GameIsOver Unit × GameState) :=
  match checkStatus s with
  | .error e => some (.error e, s)
  | .ok () =>
    if !(isMoving s.velocity) then some (.ok (), s)
    else
      match getNewSnakeHead s with
      | none => none
      | some head =>
        match boardAt s.board head with
        | .Snake => some (.ok (), endGame s)
        | .Empty i => (updateForEmpty i s).map fun s1 => (.ok (), s1)
        | .Food i => (updateForFoods i s).map fun s1 => (.ok (), s1)

end Lib

/-! ### Concrete states used by the claim instances (taken from the test
boards of the source) -/

instance : Inhabited Status := ⟨Status.Ongoing⟩

/-- A fixed deterministic random stream for the concrete examples. -/

def zeroSeq : Nat → Nat := fun _ => 0

/-- The 1x2 board fully occupied by a two-segment snake (the two-cell
state of the tests in src/game_state/state/state.rs). -/

def sWin : State :=
  { board := ⟨1, 2, [[Cell.Snake ⟨none, some .Right⟩, Cell.Snake ⟨some .Left, none⟩]]⟩,
    empty := [], foods := [], snake := [(0, 1), (0, 0)],
    rng := ⟨zeroSeq, 0⟩, events := [] }

/-- The 2x3 loosable board of the tests in src/game_state/game_state.rs:
five snake segments and one empty cell. -/

def sLoose : State :=
  { board := ⟨2, 3,
      [[Cell.Snake ⟨some .Right, some .Down⟩, Cell.Snake ⟨some .Right, some .Left⟩,
        Cell.Snake ⟨none, some .Left⟩],
       [Cell.Snake ⟨some .Up, some .Right⟩, Cell.Snake ⟨some .Left, none⟩,
        Cell.Empty 0]]⟩,
    empty := [(1, 2)], foods := [],
    snake := [(1, 1), (1, 0), (0, 0), (0, 1), (0, 2)],
    rng := ⟨zeroSeq, 0⟩, events := [] }

/-- A 1x3 board: one empty cell, the single-segment snake, one food. -/

def sFood : State :=
  { board := ⟨1, 3, [[Cell.Empty 0, Cell.Snake ⟨none, none⟩, Cell.Foods 0]]⟩,
    empty := [(0, 0)], foods := [(0, 2)], snake := [(0, 1)],
    rng := ⟨zeroSeq, 0⟩, events := [] }

/-- The state after the snake on sFood eats the food to its right. -/

def sFoodAfter : State := ((iterateTurn Direction.Right sFood).getD default).2

/-- Requested 1x2 board with one food item. -/

def oTwo : Options := ⟨1, 2, 1, zeroSeq⟩

/-- The state Options::build constructs for oTwo. -/

def s0Build : State := oTwo.fromOptions.getD default

/-- The state after the one winning turn on s0Build. -/

def s1Build : State := ((iterateTurn Direction.Right s0Build).getD default).2

/-- src/lib.rs revision: 1x2 board fully occupied by the snake, moving
right, game still ongoing. -/

def lWin : Lib.GameState :=
  { shape := (1, 2), nFoods := 0, status := Status.Ongoing,
    velocity := Lib.fromDirection Direction.Right,
    board := [[Lib.CellWithMetadata.Snake, Lib.CellWithMetadata.Snake]],
    snake := [(0, 1), (0, 0)], empty := [], foods := [], rng := ⟨zeroSeq, 0⟩ }

/-- lWin after the turn that ends the game. -/

def lWinOver : Lib.GameState := { lWin with status := Status.Over true }

/-- src/lib.rs revision state whose current heading is Up. -/

def lUp : Lib.GameState := { lWin with velocity := Lib.fromDirection Direction.Up }

/-! ### Theorems -/

@[simp] theorem setCell_nRows (b : Board) (p : Position) (c : Cell) :
    (b.setCell p c).nRows = b.nRows := rfl

@[simp] theorem setCell_nCols (b : Board) (p : Position) (c : Cell) :
    (b.setCell p c).nCols = b.nCols := rfl

theorem inBounds_setCell (b : Board) (p q : Position) (c : Cell) :
    InBounds (b.setCell p c) q ↔ InBounds b q := Iff.rfl

theorem setCell_cells (b : Board) (p : Position) (c : Cell) :
    (b.setCell p c).cells = b.cells.set p.1 ((b.cells[p.1]?.getD []).set p.2 c) := by
  simp [Board.setCell, List.getD_eq_getElem?_getD]

theorem at'_eq (b : Board) (p : Position) :
    b.at' p = ((b.cells[p.1]?.getD [])[p.2]?).getD (Cell.Empty 0) := by
  simp [Board.at', List.getD_eq_getElem?_getD]

theorem boardWF_setCell {b : Board} (p : Position) (c : Cell) (hwf : BoardWF b) :
    BoardWF (b.setCell p c) := by
  obtain ⟨h1, h2, h3, h4⟩ := hwf
  refine ⟨h1, h2, ?_, ?_⟩
  · rw [setCell_cells, List.length_set]
    exact h3
  · intro r hr
    rw [setCell_cells] at hr
    rcases Nat.lt_or_ge p.1 b.cells.length with hlt | hge
    · rcases List.mem_or_eq_of_mem_set hr with hr | hr
      · exact h4 r hr
      · subst hr
        rw [List.length_set, List.getElem?_eq_getElem hlt, Option.getD_some]
        exact h4 _ (List.getElem_mem hlt)
    · rw [List.set_eq_of_length_le hge] at hr
      exact h4 r hr

theorem at'_setCell_self {b : Board} {p : Position} (c : Cell)
    (hwf : BoardWF b) (hp : InBounds b p) : (b.setCell p c).at' p = c := by
  obtain ⟨-, -, h3, h4⟩ := hwf
  obtain ⟨hp1, hp2⟩ := hp
  have hrow : p.1 < b.cells.length := by omega
  have hlen : (b.cells[p.1]?.getD []).length = b.nCols := by
    rw [List.getElem?_eq_getElem hrow, Option.getD_some]
    exact h4 _ (List.getElem_mem hrow)
  have houter : (b.cells.set p.1 ((b.cells[p.1]?.getD []).set p.2 c))[p.1]? =
      some ((b.cells[p.1]?.getD []).set p.2 c) := by
    rw [List.getElem?_set, if_pos rfl, if_pos hrow]
  rw [at'_eq, setCell_cells, houter, Option.getD_some,
    List.getElem?_eq_getElem (by rw [List.length_set]; omega),
    Option.getD_some, List.getElem_set, if_pos rfl]

theorem at'_setCell_ne {b : Board} {p q : Position} (c : Cell)
    (hne : q ≠ p) : (b.setCell p c).at' q = b.at' q := by
  rw [at'_eq, at'_eq, setCell_cells]
  rcases eq_or_ne q.1 p.1 with h1 | h1
  · have h2 : q.2 ≠ p.2 := fun h2 => hne (Prod.ext h1 h2)
    rw [h1, List.getElem?_set, if_pos rfl]
    rcases Nat.lt_or_ge p.1 b.cells.length with hlt | hge
    · rw [if_pos hlt, Option.getD_some, List.getElem?_set,
        if_neg (fun hh => h2 hh.symm)]
    · rw [if_neg (by omega), Option.getD_none,
        List.getElem?_eq_none (show b.cells.length ≤ p.1 from hge), Option.getD_none]
  · rw [List.getElem?_set, if_neg (fun hh => h1 hh.symm)]

/-- If both positions are named by cells with different content, they
differ; convenience for back-reference disjointness arguments. -/

theorem ne_of_at'_ne {b : Board} {p q : Position} (h : b.at' p ≠ b.at' q) : p ≠ q :=
  fun hpq => h (by rw [hpq])

theorem emptyInv_nodup {s : State} (hE : EmptyInv s) : s.empty.Nodup := by
  rw [List.nodup_iff_injective_get]
  intro ⟨i, hi⟩ ⟨j, hj⟩ hij
  have h1 := hE i hi
  have h2 := hE j hj
  simp only [List.get_eq_getElem] at hij
  rw [hij, h2] at h1
  simpa using h1.symm

theorem foodsInv_nodup {s : State} (hF : FoodsInv s) : s.foods.Nodup := by
  rw [List.nodup_iff_injective_get]
  intro ⟨i, hi⟩ ⟨j, hj⟩ hij
  have h1 := hF i hi
  have h2 := hF j hj
  simp only [List.get_eq_getElem] at hij
  rw [hij, h2] at h1
  simpa using h1.symm

/-- A position whose cell is not an empty cell is not in the empty list. -/

theorem not_mem_empty {s : State} (hE : EmptyInv s) {p : Position}
    (h : (s.board.at' p).isEmptyCell ≠ true) : p ∉ s.empty := by
  intro hmem
  obtain ⟨i, hi, rfl⟩ := List.mem_iff_getElem.mp hmem
  rw [hE i hi] at h
  exact h rfl

/-- A position whose cell is not a food cell is not in the foods list. -/

theorem not_mem_foods {s : State} (hF : FoodsInv s) {p : Position}
    (h : (s.board.at' p).isFoodsCell ≠ true) : p ∉ s.foods := by
  intro hmem
  obtain ⟨i, hi, rfl⟩ := List.mem_iff_getElem.mp hmem
  rw [hF i hi] at h
  exact h rfl

/-- A position whose cell is not a snake cell is not in the body. -/

theorem not_mem_snake {s : State} (hS : SnakeInv s) {p : Position}
    (h : (s.board.at' p).isSnakeCell ≠ true) : p ∉ s.snake :=
  fun hmem => h (hS p hmem)

/-! ### Shape of each mutation: how the state record returned by an
operation relates to its input.  These unfold the definitions only; no
invariant is assumed. -/

theorem swapRemove_some {l : List α} {i : Nat} {x : α} {rest : List α}
    (h : swapRemove l i = some (x, rest)) :
    i < l.length ∧ l[i]? = some x ∧
      rest = (l.set i (l.getLast?.getD x)).dropLast := by
  unfold swapRemove at h
  cases hl : l[i]? with
  | none => rw [hl] at h; exact absurd h (by simp)
  | some y =>
    rw [hl] at h
    simp only [Option.some.injEq, Prod.mk.injEq] at h
    obtain ⟨h1, h2⟩ := h
    subst h1
    obtain ⟨hlt, -⟩ := List.getElem?_eq_some.mp hl
    exact ⟨hlt, rfl, h2.symm⟩

theorem swapRemove_length {l : List α} {i : Nat} {x : α} {rest : List α}
    (h : swapRemove l i = some (x, rest)) : rest.length + 1 = l.length := by
  obtain ⟨hlt, -, hrest⟩ := swapRemove_some h
  rw [hrest, List.length_dropLast, List.length_set]
  omega

theorem swapRemove_getElem_ne {l : List α} {i : Nat} {x : α} {rest : List α}
    (h : swapRemove l i = some (x, rest)) {j : Nat} (hij : i ≠ j)
    (hj : j < rest.length) (hj' : j < l.length) : rest[j] = l[j] := by
  obtain ⟨hlt, -, hrest⟩ := swapRemove_some h
  subst hrest
  rw [List.getElem_dropLast, List.getElem_set, if_neg hij]

theorem swapRemove_getElem_self {l : List α} {i : Nat} {x : α} {rest : List α}
    (h : swapRemove l i = some (x, rest)) (hi : i < rest.length)
    (hl : l.length - 1 < l.length) : rest[i] = l[l.length - 1] := by
  obtain ⟨hlt, -, hrest⟩ := swapRemove_some h
  have hne : l ≠ [] := by
    intro hnil
    rw [hnil] at hlt
    simp at hlt
  have hlast : l.getLast?.getD x = l[l.length - 1] := by
    rw [List.getLast?_eq_getLast l hne, Option.getD_some, List.getLast_eq_getElem]
  subst hrest
  rw [List.getElem_dropLast, List.getElem_set, if_pos rfl, hlast]

theorem swapRemove_subset {l : List α} {i : Nat} {x : α} {rest : List α}
    (h : swapRemove l i = some (x, rest)) {a : α} (ha : a ∈ rest) : a ∈ l := by
  obtain ⟨hlt, -, hrest⟩ := swapRemove_some h
  subst hrest
  have ha' := (List.dropLast_sublist _).mem ha
  rcases List.mem_or_eq_of_mem_set ha' with ha' | ha'
  · exact ha'
  · subst ha'
    have hne : l ≠ [] := by
      intro hnil
      rw [hnil] at hlt
      simp at hlt
    rw [List.getLast?_eq_getLast l hne, Option.getD_some]
    exact List.getLast_mem hne

theorem swapRemove_removed {l : List α} {i : Nat} {x : α} {rest : List α}
    (h : swapRemove l i = some (x, rest)) : x ∈ l := by
  obtain ⟨hlt, hx, -⟩ := swapRemove_some h
  obtain ⟨hlt2, hx2⟩ := List.getElem?_eq_some.mp hx
  rw [← hx2]
  exact List.getElem_mem hlt2

theorem removeLastTail_some {s s' : State} (h : removeLastTail s = some s') :
    ∃ t pe, s.snake.getLast? = some t ∧ s.board.at' t = Cell.Snake ⟨none, pe⟩ ∧
      s'.board = s.board.setCell t (Cell.Empty s.empty.length) ∧
      s'.empty = s.empty ++ [t] ∧ s'.foods = s.foods ∧
      s'.snake = s.snake.dropLast ∧ s'.rng = s.rng := by
  unfold removeLastTail at h
  split at h
  · exact absurd h (by simp)
  next t hL =>
    simp only [] at h
    split at h
    next pe hC =>
      injection h with h
      subst h
      exact ⟨t, pe, hL, hC, rfl, rfl, rfl, rfl, rfl⟩
    next => exact absurd h (by simp)

theorem updateNextTail_some {s s' : State} (h : updateNextTail s = some s') :
    ∃ t path, s.snake.getLast? = some t ∧ s.board.at' t = Cell.Snake path ∧
      s'.board = s.board.setCell t (Cell.Snake ⟨none, path.exit⟩) ∧
      s'.empty = s.empty ∧ s'.foods = s.foods ∧
      s'.snake = s.snake ∧ s'.rng = s.rng := by
  unfold updateNextTail at h
  split at h
  · exact absurd h (by simp)
  next t hL =>
    split at h
    next path hC =>
      injection h with h
      subst h
      exact ⟨t, path, hL, hC, rfl, rfl, rfl, rfl, rfl⟩
    next => exact absurd h (by simp)

theorem updateLastHead_some {d : Direction} {s s' : State}
    (h : updateLastHead d s = some s') :
    ∃ hd e, s.snake.head? = some hd ∧ s.board.at' hd = Cell.Snake ⟨e, none⟩ ∧
      s'.board = s.board.setCell hd (Cell.Snake ⟨e, some d⟩) ∧
      s'.empty = s.empty ∧ s'.foods = s.foods ∧
      s'.snake = s.snake ∧ s'.rng = s.rng := by
  unfold updateLastHead at h
  split at h
  · exact absurd h (by simp)
  next hd hL =>
    split at h
    next e hC =>
      injection h with h
      subst h
      exact ⟨hd, e, hL, hC, rfl, rfl, rfl, rfl, rfl⟩
    next => exact absurd h (by simp)

theorem removeEmpty_some {nh : Position} {i : Nat} {s s' : State}
    (h : removeEmpty nh i s = some s') :
    ∃ rest, swapRemove s.empty i = some (nh, rest) ∧
      s'.empty = rest ∧ s'.foods = s.foods ∧ s'.snake = s.snake ∧
      s'.rng = s.rng ∧ s'.events = s.events ∧
      (i < rest.length → s'.board = s.board.setCell (rest[i]?.getD nh) (Cell.Empty i)) ∧
      (rest.length ≤ i → s'.board = s.board) := by
  unfold removeEmpty at h
  split at h
  · exact absurd h (by simp)
  next removed rest hsw =>
    split at h
    next heq =>
      subst heq
      split at h
      next hlt =>
        injection h with h
        subst h
        refine ⟨rest, hsw, rfl, rfl, rfl, rfl, rfl, ?_, ?_⟩
        · intro h'
          rw [List.getElem?_eq_getElem hlt, Option.getD_some]
        · intro h'
          omega
      next hge =>
        injection h with h
        subst h
        exact ⟨rest, hsw, rfl, rfl, rfl, rfl, rfl, fun h' => absurd h' hge, fun _ => rfl⟩
    next => exact absurd h (by simp)

theorem removeFoods_some {nh : Position} {i : Nat} {s s' : State}
    (h : removeFoods nh i s = some s') :
    ∃ rest, swapRemove s.foods i = some (nh, rest) ∧
      s'.foods = rest ∧ s'.empty = s.empty ∧ s'.snake = s.snake ∧
      s'.rng = s.rng ∧ s'.events = s.events ∧
      (i < rest.length → s'.board = s.board.setCell (rest[i]?.getD nh) (Cell.Foods i)) ∧
      (rest.length ≤ i → s'.board = s.board) := by
  unfold removeFoods at h
  split at h
  · exact absurd h (by simp)
  next removed rest hsw =>
    split at h
    next heq =>
      subst heq
      split at h
      next hlt =>
        injection h with h
        subst h
        refine ⟨rest, hsw, rfl, rfl, rfl, rfl, rfl, ?_, ?_⟩
        · intro h'
          rw [List.getElem?_eq_getElem hlt, Option.getD_some]
        · intro h'
          omega
      next hge =>
        injection h with h
        subst h
        exact ⟨rest, hsw, rfl, rfl, rfl, rfl, rfl, fun h' => absurd h' hge, fun _ => rfl⟩
    next => exact absurd h (by simp)

theorem insertSnakeHead_some {nh : Position} {e : Option Direction} {s s' : State}
    (h : insertSnakeHead nh e s = some s') :
    ∃ s1, ((∃ i, s.board.at' nh = Cell.Empty i ∧ removeEmpty nh i s = some s1) ∨
           (∃ i, s.board.at' nh = Cell.Foods i ∧ removeFoods nh i s = some s1)) ∧
      s'.board = s1.board.setCell nh (Cell.Snake ⟨e, none⟩) ∧
      s'.empty = s1.empty ∧ s'.foods = s1.foods ∧
      s'.snake = nh :: s1.snake ∧ s'.rng = s1.rng := by
  unfold insertSnakeHead at h
  simp only [] at h
  split at h
  · exact absurd h (by simp)
  next s1 hstep =>
    injection h with h
    subst h
    refine ⟨s1, ?_, rfl, rfl, rfl, rfl, rfl⟩
    revert hstep
    split
    next i hC => exact fun hstep => Or.inl ⟨i, hC, hstep⟩
    next i hC => exact fun hstep => Or.inr ⟨i, hC, hstep⟩
    next hC => intro hstep; exact absurd hstep (by simp)

theorem insertFood_of_isEmpty {s : State} (h : s.empty = []) : insertFood s = s := by
  unfold insertFood
  rw [if_pos (by simp [h])]

theorem insertFood_of_ne {s : State} (h : s.empty ≠ []) :
    ∃ x rest, swapRemove s.empty ((s.rng.genRange s.empty.length).1) = some (x, rest) ∧
      (insertFood s).empty = rest ∧
      (insertFood s).foods = s.foods ++ [x] ∧
      (insertFood s).snake = s.snake ∧
      (insertFood s).rng = (s.rng.genRange s.empty.length).2 := by
  have hn : 0 < s.empty.length := List.length_pos.mpr h
  have hlt : (s.rng.genRange s.empty.length).1 < s.empty.length := by
    unfold Rng.genRange
    exact Nat.mod_lt _ hn
  have hget : s.empty[(s.rng.genRange s.empty.length).1]? =
      some (s.empty[(s.rng.genRange s.empty.length).1]) :=
    List.getElem?_eq_getElem hlt
  have hsw : swapRemove s.empty ((s.rng.genRange s.empty.length).1) =
      some (s.empty[(s.rng.genRange s.empty.length).1],
        (s.empty.set (s.rng.genRange s.empty.length).1
          (s.empty.getLast?.getD s.empty[(s.rng.genRange s.empty.length).1])).dropLast) := by
    unfold swapRemove
    rw [hget]
  refine ⟨_, _, hsw, ?_, ?_, ?_, ?_⟩ <;>
    · unfold insertFood
      rw [if_neg (by simp [h])]
      simp only []
      rw [hsw]

/-! ### Preservation of the board invariants by each mutation -/

theorem removeLastTail_valid {s s' : State} (hv : Valid s)
    (h : removeLastTail s = some s') : Valid s' := by
  obtain ⟨hwf, hE, hF, hS, hbe, hbf, hbs, hnd⟩ := hv
  obtain ⟨t, pe, hL, hC, hb, he, hf, hsn, -⟩ := removeLastTail_some h
  obtain ⟨ys, hys⟩ := List.getLast?_eq_some_iff.mp hL
  have htmem : t ∈ s.snake := by
    rw [hys]
    exact List.mem_append_right _ (by simp)
  have htb : InBounds s.board t := hbs t htmem
  have hne_empty : ∀ i (hi : i < s.empty.length), s.empty[i] ≠ t := by
    intro i hi heq
    have hcell := hE i hi
    rw [heq, hC] at hcell
    exact absurd hcell (by simp)
  have hne_foods : ∀ i (hi : i < s.foods.length), s.foods[i] ≠ t := by
    intro i hi heq
    have hcell := hF i hi
    rw [heq, hC] at hcell
    exact absurd hcell (by simp)
  have hdl : s.snake.dropLast = ys := by
    rw [hys]
    exact List.dropLast_concat
  have hnotin : t ∉ ys := by
    rw [hys, List.nodup_append] at hnd
    intro hmem
    exact hnd.2.2 hmem (by simp)
  refine ⟨?_, ?_, ?_, ?_, ?_, ?_, ?_, ?_⟩
  · rw [hb]
    exact boardWF_setCell _ _ hwf
  · intro i hi
    rw [he] at hi
    rw [List.length_append, List.length_singleton] at hi
    simp only [he, hb]
    rcases Nat.lt_or_ge i s.empty.length with hilt | hige
    · rw [List.getElem_append_left hilt, at'_setCell_ne _ (hne_empty i hilt)]
      exact hE i hilt
    · have hieq : i = s.empty.length := by omega
      subst hieq
      rw [List.getElem_append_right (le_refl _)]
      simp only [Nat.sub_self, List.getElem_singleton]
      exact at'_setCell_self _ hwf htb
  · intro i hi
    rw [hf] at hi
    simp only [hf, hb]
    rw [at'_setCell_ne _ (hne_foods i hi)]
    exact hF i hi
  · intro p hp
    rw [hsn, hdl] at hp
    have hpne : p ≠ t := fun heq => hnotin (heq ▸ hp)
    have hpmem : p ∈ s.snake := by
      rw [hys]
      exact List.mem_append_left _ hp
    rw [hb, at'_setCell_ne _ hpne]
    exact hS p hpmem
  · intro p hp
    rw [he] at hp
    rw [hb, inBounds_setCell]
    rcases List.mem_append.mp hp with hp | hp
    · exact hbe p hp
    · rw [List.mem_singleton] at hp
      subst hp
      exact htb
  · intro p hp
    rw [hf] at hp
    rw [hb, inBounds_setCell]
    exact hbf p hp
  · intro p hp
    rw [hsn] at hp
    rw [hb, inBounds_setCell]
    exact hbs p ((List.dropLast_sublist _).mem hp)
  · rw [hsn]
    exact (List.dropLast_sublist _).nodup hnd

/-- Rewriting the path metadata of a cell under the snake body preserves
every invariant, whatever the new path is. -/

theorem setSnake_valid {s s' : State} (hv : Valid s) {t : Position} {pnew : Path}
    (htmem : t ∈ s.snake)
    (hb : s'.board = s.board.setCell t (Cell.Snake pnew))
    (he : s'.empty = s.empty) (hf : s'.foods = s.foods)
    (hsn : s'.snake = s.snake) : Valid s' := by
  obtain ⟨hwf, hE, hF, hS, hbe, hbf, hbs, hnd⟩ := hv
  have htb : InBounds s.board t := hbs t htmem
  have htsnake := hS t htmem
  have hne_empty : ∀ i (hi : i < s.empty.length), s.empty[i] ≠ t := by
    intro i hi heq
    have hcell := hE i hi
    rw [heq] at hcell
    rw [hcell] at htsnake
    exact absurd htsnake (by simp [Cell.isSnakeCell])
  have hne_foods : ∀ i (hi : i < s.foods.length), s.foods[i] ≠ t := by
    intro i hi heq
    have hcell := hF i hi
    rw [heq] at hcell
    rw [hcell] at htsnake
    exact absurd htsnake (by simp [Cell.isSnakeCell])
  refine ⟨?_, ?_, ?_, ?_, ?_, ?_, ?_, ?_⟩
  · rw [hb]
    exact boardWF_setCell _ _ hwf
  · intro i hi
    rw [he] at hi
    simp only [he, hb]
    rw [at'_setCell_ne _ (hne_empty i hi)]
    exact hE i hi
  · intro i hi
    rw [hf] at hi
    simp only [hf, hb]
    rw [at'_setCell_ne _ (hne_foods i hi)]
    exact hF i hi
  · intro p hp
    rw [hsn] at hp
    rcases eq_or_ne p t with hpt | hpt
    · subst hpt
      rw [hb, at'_setCell_self _ hwf htb]
      rfl
    · rw [hb, at'_setCell_ne _ hpt]
      exact hS p hp
  · intro p hp
    rw [he] at hp
    rw [hb, inBounds_setCell]
    exact hbe p hp
  · intro p hp
    rw [hf] at hp
    rw [hb, inBounds_setCell]
    exact hbf p hp
  · intro p hp
    rw [hsn] at hp
    rw [hb, inBounds_setCell]
    exact hbs p hp
  · rw [hsn]
    exact hnd

theorem updateNextTail_valid {s s' : State} (hv : Valid s)
    (h : updateNextTail s = some s') : Valid s' := by
  obtain ⟨t, path, hL, -, hb, he, hf, hsn, -⟩ := updateNextTail_some h
  obtain ⟨ys, hys⟩ := List.getLast?_eq_some_iff.mp hL
  have htmem : t ∈ s.snake := by
    rw [hys]
    exact List.mem_append_right _ (by simp)
  exact setSnake_valid hv htmem hb he hf hsn

theorem updateLastHead_valid {d : Direction} {s s' : State} (hv : Valid s)
    (h : updateLastHead d s = some s') : Valid s' := by
  obtain ⟨hd, e, hL, -, hb, he, hf, hsn, -⟩ := updateLastHead_some h
  have hdmem : hd ∈ s.snake := List.mem_of_mem_head? (by simp [hL])
  exact setSnake_valid hv hdmem hb he hf hsn

theorem removeEmpty_valid {nh : Position} {i : Nat} {s s' : State} (hv : Valid s)
    (h : removeEmpty nh i s = some s') :
    Valid s' ∧ nh ∉ s'.empty ∧ s'.board.at' nh = s.board.at' nh ∧
      s.board.at' nh = Cell.Empty i ∧ nh ∈ s.empty := by
  obtain ⟨hwf, hE, hF, hS, hbe, hbf, hbs, hnd⟩ := hv
  obtain ⟨rest, hsw, he, hf, hsn, hrng, hev, hbA, hbB⟩ := removeEmpty_some h
  obtain ⟨hi, hnhq, -⟩ := swapRemove_some hsw
  obtain ⟨hid, hnh⟩ := List.getElem?_eq_some.mp hnhq
  have hlen : rest.length + 1 = s.empty.length := swapRemove_length hsw
  have hndE : s.empty.Nodup := emptyInv_nodup hE
  have hat_nh : s.board.at' nh = Cell.Empty i := by
    rw [← hnh]
    exact hE i hi
  have hmem_nh : nh ∈ s.empty := by
    rw [← hnh]
    exact List.getElem_mem hi
  have hnotmem : nh ∉ rest := by
    intro hmem
    obtain ⟨j, hj, hjeq⟩ := List.mem_iff_getElem.mp hmem
    rcases eq_or_ne j i with hji | hji
    · subst hji
      have hself := swapRemove_getElem_self hsw hj (by omega)
      rw [hself, ← hnh] at hjeq
      have := hndE.getElem_inj_iff.mp hjeq
      omega
    · have hne := swapRemove_getElem_ne hsw (fun hh => hji hh.symm) hj (by omega)
      rw [hne, ← hnh] at hjeq
      have := hndE.getElem_inj_iff.mp hjeq
      omega
  rcases Nat.lt_or_ge i rest.length with hA | hB
  · have hb := hbA hA
    have hlast_lt : s.empty.length - 1 < s.empty.length := by omega
    have hrest_i : rest[i]?.getD nh = s.empty[s.empty.length - 1] := by
      rw [List.getElem?_eq_getElem hA, Option.getD_some]
      exact swapRemove_getElem_self hsw hA hlast_lt
    rw [hrest_i] at hb
    have hat_last : s.board.at' s.empty[s.empty.length - 1] =
        Cell.Empty (s.empty.length - 1) := hE _ hlast_lt
    have hlast_b : InBounds s.board s.empty[s.empty.length - 1] :=
      hbe _ (List.getElem_mem hlast_lt)
    have hlast_ne_nh : s.empty[s.empty.length - 1] ≠ nh := by
      intro heq
      rw [← hnh] at heq
      have := hndE.getElem_inj_iff.mp heq
      omega
    have hne_foods : ∀ j (hj : j < s.foods.length),
        s.foods[j] ≠ s.empty[s.empty.length - 1] := by
      intro j hj heq
      have hcell := hF j hj
      rw [heq, hat_last] at hcell
      exact absurd hcell (by simp)
    have hne_snake : ∀ p ∈ s.snake, p ≠ s.empty[s.empty.length - 1] := by
      intro p hp heq
      have hcell := hS p hp
      rw [heq, hat_last] at hcell
      exact absurd hcell (by simp [Cell.isSnakeCell])
    refine ⟨⟨?_, ?_, ?_, ?_, ?_, ?_, ?_, ?_⟩, ?_, ?_, hat_nh, hmem_nh⟩
    · rw [hb]
      exact boardWF_setCell _ _ hwf
    · intro j hj
      rw [he] at hj
      simp only [he, hb]
      rcases eq_or_ne j i with hji | hji
      · subst hji
        rw [swapRemove_getElem_self hsw hj hlast_lt,
          at'_setCell_self _ hwf hlast_b]
      · have hje := swapRemove_getElem_ne hsw (fun hh => hji hh.symm) hj (by omega)
        rw [hje]
        have hne : s.empty[j] ≠ s.empty[s.empty.length - 1] := by
          intro heq
          have := hndE.getElem_inj_iff.mp heq
          omega
        rw [at'_setCell_ne _ hne]
        exact hE j (by omega)
    · intro j hj
      rw [hf] at hj
      simp only [hf, hb]
      rw [at'_setCell_ne _ (hne_foods j hj)]
      exact hF j hj
    · intro p hp
      rw [hsn] at hp
      rw [hb, at'_setCell_ne _ (hne_snake p hp)]
      exact hS p hp
    · intro p hp
      rw [he] at hp
      rw [hb, inBounds_setCell]
      exact hbe p (swapRemove_subset hsw hp)
    · intro p hp
      rw [hf] at hp
      rw [hb, inBounds_setCell]
      exact hbf p hp
    · intro p hp
      rw [hsn] at hp
      rw [hb, inBounds_setCell]
      exact hbs p hp
    · rw [hsn]
      exact hnd
    · rw [he]
      exact hnotmem
    · rw [hb, at'_setCell_ne _ (Ne.symm hlast_ne_nh)]
  · have hb := hbB hB
    refine ⟨⟨?_, ?_, ?_, ?_, ?_, ?_, ?_, ?_⟩, ?_, ?_, hat_nh, hmem_nh⟩
    · rw [hb]
      exact hwf
    · intro j hj
      rw [he] at hj
      simp only [he, hb]
      have hji : i ≠ j := by omega
      rw [swapRemove_getElem_ne hsw hji hj (by omega)]
      exact hE j (by omega)
    · intro j hj
      rw [hf] at hj
      simp only [hf, hb]
      exact hF j hj
    · intro p hp
      rw [hsn] at hp
      rw [hb]
      exact hS p hp
    · intro p hp
      rw [he] at hp
      rw [hb]
      exact hbe p (swapRemove_subset hsw hp)
    · intro p hp
      rw [hf] at hp
      rw [hb]
      exact hbf p hp
    · intro p hp
      rw [hsn] at hp
      rw [hb]
      exact hbs p hp
    · rw [hsn]
      exact hnd
    · rw [he]
      exact hnotmem
    · rw [hb]

theorem removeFoods_valid {nh : Position} {i : Nat} {s s' : State} (hv : Valid s)
    (h : removeFoods nh i s = some s') :
    Valid s' ∧ nh ∉ s'.foods ∧ s'.board.at' nh = s.board.at' nh ∧
      s.board.at' nh = Cell.Foods i ∧ nh ∈ s.foods := by
  obtain ⟨hwf, hE, hF, hS, hbe, hbf, hbs, hnd⟩ := hv
  obtain ⟨rest, hsw, hf, he, hsn, hrng, hev, hbA, hbB⟩ := removeFoods_some h
  obtain ⟨hi, hnhq, -⟩ := swapRemove_some hsw
  obtain ⟨hid, hnh⟩ := List.getElem?_eq_some.mp hnhq
  have hlen : rest.length + 1 = s.foods.length := swapRemove_length hsw
  have hndF : s.foods.Nodup := foodsInv_nodup hF
  have hat_nh : s.board.at' nh = Cell.Foods i := by
    rw [← hnh]
    exact hF i hi
  have hmem_nh : nh ∈ s.foods := by
    rw [← hnh]
    exact List.getElem_mem hi
  have hnotmem : nh ∉ rest := by
    intro hmem
    obtain ⟨j, hj, hjeq⟩ := List.mem_iff_getElem.mp hmem
    rcases eq_or_ne j i with hji | hji
    · subst hji
      have hself := swapRemove_getElem_self hsw hj (by omega)
      rw [hself, ← hnh] at hjeq
      have := hndF.getElem_inj_iff.mp hjeq
      omega
    · have hne := swapRemove_getElem_ne hsw (fun hh => hji hh.symm) hj (by omega)
      rw [hne, ← hnh] at hjeq
      have := hndF.getElem_inj_iff.mp hjeq
      omega
  rcases Nat.lt_or_ge i rest.length with hA | hB
  · have hb := hbA hA
    have hlast_lt : s.foods.length - 1 < s.foods.length := by omega
    have hrest_i : rest[i]?.getD nh = s.foods[s.foods.length - 1] := by
      rw [List.getElem?_eq_getElem hA, Option.getD_some]
      exact swapRemove_getElem_self hsw hA hlast_lt
    rw [hrest_i] at hb
    have hat_last : s.board.at' s.foods[s.foods.length - 1] =
        Cell.Foods (s.foods.length - 1) := hF _ hlast_lt
    have hlast_b : InBounds s.board s.foods[s.foods.length - 1] :=
      hbf _ (List.getElem_mem hlast_lt)
    have hlast_ne_nh : s.foods[s.foods.length - 1] ≠ nh := by
      intro heq
      rw [← hnh] at heq
      have := hndF.getElem_inj_iff.mp heq
      omega
    have hne_empty : ∀ j (hj : j < s.empty.length),
        s.empty[j] ≠ s.foods[s.foods.length - 1] := by
      intro j hj heq
      have hcell := hE j hj
      rw [heq, hat_last] at hcell
      exact absurd hcell (by simp)
    have hne_snake : ∀ p ∈ s.snake, p ≠ s.foods[s.foods.length - 1] := by
      intro p hp heq
      have hcell := hS p hp
      rw [heq, hat_last] at hcell
      exact absurd hcell (by simp [Cell.isSnakeCell])
    refine ⟨⟨?_, ?_, ?_, ?_, ?_, ?_, ?_, ?_⟩, ?_, ?_, hat_nh, hmem_nh⟩
    · rw [hb]
      exact boardWF_setCell _ _ hwf
    · intro j hj
      rw [he] at hj
      simp only [he, hb]
      rw [at'_setCell_ne _ (hne_empty j hj)]
      exact hE j hj
    · intro j hj
      rw [hf] at hj
      simp only [hf, hb]
      rcases eq_or_ne j i with hji | hji
      · subst hji
        rw [swapRemove_getElem_self hsw hj hlast_lt,
          at'_setCell_self _ hwf hlast_b]
      · have hje := swapRemove_getElem_ne hsw (fun hh => hji hh.symm) hj (by omega)
        rw [hje]
        have hne : s.foods[j] ≠ s.foods[s.foods.length - 1] := by
          intro heq
          have := hndF.getElem_inj_iff.mp heq
          omega
        rw [at'_setCell_ne _ hne]
        exact hF j (by omega)
    · intro p hp
      rw [hsn] at hp
      rw [hb, at'_setCell_ne _ (hne_snake p hp)]
      exact hS p hp
    · intro p hp
      rw [he] at hp
      rw [hb, inBounds_setCell]
      exact hbe p hp
    · intro p hp
      rw [hf] at hp
      rw [hb, inBounds_setCell]
      exact hbf p (swapRemove_subset hsw hp)
    · intro p hp
      rw [hsn] at hp
      rw [hb, inBounds_setCell]
      exact hbs p hp
    · rw [hsn]
      exact hnd
    · rw [hf]
      exact hnotmem
    · rw [hb, at'_setCell_ne _ (Ne.symm hlast_ne_nh)]
  · have hb := hbB hB
    refine ⟨⟨?_, ?_, ?_, ?_, ?_, ?_, ?_, ?_⟩, ?_, ?_, hat_nh, hmem_nh⟩
    · rw [hb]
      exact hwf
    · intro j hj
      rw [he] at hj
      simp only [he, hb]
      exact hE j hj
    · intro j hj
      rw [hf] at hj
      simp only [hf, hb]
      have hji : i ≠ j := by omega
      rw [swapRemove_getElem_ne hsw hji hj (by omega)]
      exact hF j (by omega)
    · intro p hp
      rw [hsn] at hp
      rw [hb]
      exact hS p hp
    · intro p hp
      rw [he] at hp
      rw [hb]
      exact hbe p hp
    · intro p hp
      rw [hf] at hp
      rw [hb]
      exact hbf p (swapRemove_subset hsw hp)
    · intro p hp
      rw [hsn] at hp
      rw [hb]
      exact hbs p hp
    · rw [hsn]
      exact hnd
    · rw [hf]
      exact hnotmem
    · rw [hb]

theorem removeEmpty_dims {nh : Position} {i : Nat} {s s' : State}
    (h : removeEmpty nh i s = some s') :
    s'.board.nRows = s.board.nRows ∧ s'.board.nCols = s.board.nCols := by
  obtain ⟨rest, -, -, -, -, -, -, hbA, hbB⟩ := removeEmpty_some h
  rcases Nat.lt_or_ge i rest.length with hA | hB
  · rw [hbA hA]
    exact ⟨rfl, rfl⟩
  · rw [hbB hB]
    exact ⟨rfl, rfl⟩

theorem removeFoods_dims {nh : Position} {i : Nat} {s s' : State}
    (h : removeFoods nh i s = some s') :
    s'.board.nRows = s.board.nRows ∧ s'.board.nCols = s.board.nCols := by
  obtain ⟨rest, -, -, -, -, -, -, hbA, hbB⟩ := removeFoods_some h
  rcases Nat.lt_or_ge i rest.length with hA | hB
  · rw [hbA hA]
    exact ⟨rfl, rfl⟩
  · rw [hbB hB]
    exact ⟨rfl, rfl⟩

theorem insertSnakeHead_valid_aux {s1 s' : State} (hv1 : Valid s1)
    {nh : Position} {e : Option Direction} (hnb1 : InBounds s1.board nh)
    (hnotE : nh ∉ s1.empty) (hnotF : nh ∉ s1.foods) (hnotS : nh ∉ s1.snake)
    (hb : s'.board = s1.board.setCell nh (Cell.Snake ⟨e, none⟩))
    (he : s'.empty = s1.empty) (hf : s'.foods = s1.foods)
    (hsn : s'.snake = nh :: s1.snake) : Valid s' := by
  obtain ⟨hwf1, hE1, hF1, hS1, hbe1, hbf1, hbs1, hnd1⟩ := hv1
  refine ⟨?_, ?_, ?_, ?_, ?_, ?_, ?_, ?_⟩
  · rw [hb]
    exact boardWF_setCell _ _ hwf1
  · intro j hj
    rw [he] at hj
    simp only [he, hb]
    have hne : s1.empty[j] ≠ nh := fun heq => hnotE (heq ▸ List.getElem_mem hj)
    rw [at'_setCell_ne _ hne]
    exact hE1 j hj
  · intro j hj
    rw [hf] at hj
    simp only [hf, hb]
    have hne : s1.foods[j] ≠ nh := fun heq => hnotF (heq ▸ List.getElem_mem hj)
    rw [at'_setCell_ne _ hne]
    exact hF1 j hj
  · intro p hp
    rw [hsn] at hp
    rcases List.mem_cons.mp hp with hp | hp
    · subst hp
      rw [hb, at'_setCell_self _ hwf1 hnb1]
      rfl
    · have hne : p ≠ nh := fun heq => hnotS (heq ▸ hp)
      rw [hb, at'_setCell_ne _ hne]
      exact hS1 p hp
  · intro p hp
    rw [he] at hp
    rw [hb, inBounds_setCell]
    exact hbe1 p hp
  · intro p hp
    rw [hf] at hp
    rw [hb, inBounds_setCell]
    exact hbf1 p hp
  · intro p hp
    rw [hsn] at hp
    rw [hb, inBounds_setCell]
    rcases List.mem_cons.mp hp with hp | hp
    · subst hp
      exact hnb1
    · exact hbs1 p hp
  · rw [hsn]
    exact List.nodup_cons.mpr ⟨hnotS, hnd1⟩

theorem insertSnakeHead_valid {nh : Position} {e : Option Direction} {s s' : State}
    (hv : Valid s) (h : insertSnakeHead nh e s = some s') : Valid s' := by
  obtain ⟨s1, hrem, hb, he, hf, hsn, -⟩ := insertSnakeHead_some h
  rcases hrem with ⟨i, hC, hrem⟩ | ⟨i, hC, hrem⟩
  · obtain ⟨hv1, hnotE, hat1, -, hmem⟩ := removeEmpty_valid hv hrem
    have hd := removeEmpty_dims hrem
    have hnb : InBounds s.board nh := hv.2.2.2.2.1 nh hmem
    have hnb1 : InBounds s1.board nh :=
      ⟨by rw [hd.1]; exact hnb.1, by rw [hd.2]; exact hnb.2⟩
    have hat1nh : s1.board.at' nh = Cell.Empty i := by
      rw [hat1]
      exact hC
    have hnotF : nh ∉ s1.foods :=
      not_mem_foods hv1.2.2.1 (by rw [hat1nh]; simp [Cell.isFoodsCell])
    have hnotS : nh ∉ s1.snake :=
      not_mem_snake hv1.2.2.2.1 (by rw [hat1nh]; simp [Cell.isSnakeCell])
    exact insertSnakeHead_valid_aux hv1 hnb1 hnotE hnotF hnotS hb he hf hsn
  · obtain ⟨hv1, hnotF, hat1, -, hmem⟩ := removeFoods_valid hv hrem
    have hd := removeFoods_dims hrem
    have hnb : InBounds s.board nh := hv.2.2.2.2.2.1 nh hmem
    have hnb1 : InBounds s1.board nh :=
      ⟨by rw [hd.1]; exact hnb.1, by rw [hd.2]; exact hnb.2⟩
    have hat1nh : s1.board.at' nh = Cell.Foods i := by
      rw [hat1]
      exact hC
    have hnotE : nh ∉ s1.empty :=
      not_mem_empty hv1.2.1 (by rw [hat1nh]; simp [Cell.isEmptyCell])
    have hnotS : nh ∉ s1.snake :=
      not_mem_snake hv1.2.2.2.1 (by rw [hat1nh]; simp [Cell.isSnakeCell])
    exact insertSnakeHead_valid_aux hv1 hnb1 hnotE hnotF hnotS hb he hf hsn

theorem appendFoods_valid_aux {s1 s' : State} (hv1 : Valid s1) {pos : Position}
    (hnb1 : InBounds s1.board pos) (hnotE : pos ∉ s1.empty)
    (hnotF : pos ∉ s1.foods) (hnotS : pos ∉ s1.snake)
    (hb : s'.board = s1.board.setCell pos (Cell.Foods s1.foods.length))
    (he : s'.empty = s1.empty) (hf : s'.foods = s1.foods ++ [pos])
    (hsn : s'.snake = s1.snake) : Valid s' := by
  obtain ⟨hwf1, hE1, hF1, hS1, hbe1, hbf1, hbs1, hnd1⟩ := hv1
  refine ⟨?_, ?_, ?_, ?_, ?_, ?_, ?_, ?_⟩
  · rw [hb]
    exact boardWF_setCell _ _ hwf1
  · intro j hj
    rw [he] at hj
    simp only [he, hb]
    have hne : s1.empty[j] ≠ pos := fun heq => hnotE (heq ▸ List.getElem_mem hj)
    rw [at'_setCell_ne _ hne]
    exact hE1 j hj
  · intro j hj
    rw [hf] at hj
    rw [List.length_append, List.length_singleton] at hj
    simp only [hf, hb]
    rcases Nat.lt_or_ge j s1.foods.length with hjlt | hjge
    · rw [List.getElem_append_left hjlt]
      have hne : s1.foods[j] ≠ pos := fun heq => hnotF (heq ▸ List.getElem_mem hjlt)
      rw [at'_setCell_ne _ hne]
      exact hF1 j hjlt
    · have hjeq : j = s1.foods.length := by omega
      subst hjeq
      rw [List.getElem_append_right (le_refl _)]
      simp only [Nat.sub_self, List.getElem_singleton]
      exact at'_setCell_self _ hwf1 hnb1
  · intro p hp
    rw [hsn] at hp
    have hne : p ≠ pos := fun heq => hnotS (heq ▸ hp)
    rw [hb, at'_setCell_ne _ hne]
    exact hS1 p hp
  · intro p hp
    rw [he] at hp
    rw [hb, inBounds_setCell]
    exact hbe1 p hp
  · intro p hp
    rw [hf] at hp
    rw [hb, inBounds_setCell]
    rcases List.mem_append.mp hp with hp | hp
    · exact hbf1 p hp
    · rw [List.mem_singleton] at hp
      subst hp
      exact hnb1
  · intro p hp
    rw [hsn] at hp
    rw [hb, inBounds_setCell]
    exact hbs1 p hp
  · rw [hsn]
    exact hnd1

/-- insert_food performs exactly the removal protocol of remove_empty on
its drawn index before rebadging the drawn position as food. -/

theorem insertFood_via_removeEmpty {s : State} (hne : s.empty ≠ []) :
    ∃ s1, removeEmpty (s.empty[(s.rng.genRange s.empty.length).1]?.getD (0, 0))
        ((s.rng.genRange s.empty.length).1) s = some s1 ∧
      (insertFood s).board =
        s1.board.setCell (s.empty[(s.rng.genRange s.empty.length).1]?.getD (0, 0))
          (Cell.Foods s1.foods.length) ∧
      (insertFood s).empty = s1.empty ∧
      (insertFood s).foods =
        s1.foods ++ [s.empty[(s.rng.genRange s.empty.length).1]?.getD (0, 0)] ∧
      (insertFood s).snake = s1.snake := by
  have hn : 0 < s.empty.length := List.length_pos.mpr hne
  have hlt : (s.rng.genRange s.empty.length).1 < s.empty.length := by
    unfold Rng.genRange
    exact Nat.mod_lt _ hn
  have hget : s.empty[(s.rng.genRange s.empty.length).1]? =
      some (s.empty[(s.rng.genRange s.empty.length).1]) :=
    List.getElem?_eq_getElem hlt
  have hgetD : s.empty[(s.rng.genRange s.empty.length).1]?.getD (0, 0) =
      s.empty[(s.rng.genRange s.empty.length).1] := by
    rw [hget, Option.getD_some]
  have hsw : swapRemove s.empty ((s.rng.genRange s.empty.length).1) =
      some (s.empty[(s.rng.genRange s.empty.length).1],
        (s.empty.set (s.rng.genRange s.empty.length).1
          (s.empty.getLast?.getD s.empty[(s.rng.genRange s.empty.length).1])).dropLast) := by
    unfold swapRemove
    rw [hget]
  rw [hgetD]
  rcases Nat.lt_or_ge (s.rng.genRange s.empty.length).1
      ((s.empty.set (s.rng.genRange s.empty.length).1
        (s.empty.getLast?.getD s.empty[(s.rng.genRange s.empty.length).1])).dropLast).length
      with hA | hB
  · refine ⟨{ s with
        empty := (s.empty.set (s.rng.genRange s.empty.length).1
          (s.empty.getLast?.getD s.empty[(s.rng.genRange s.empty.length).1])).dropLast,
        board := s.board.setCell
          ((s.empty.set (s.rng.genRange s.empty.length).1
            (s.empty.getLast?.getD s.empty[(s.rng.genRange s.empty.length).1])).dropLast[(s.rng.genRange s.empty.length).1])
          (Cell.Empty (s.rng.genRange s.empty.length).1) }, ?_, ?_, ?_, ?_, ?_⟩
    · unfold removeEmpty
      rw [hsw]
      dsimp only
      rw [if_pos rfl, dif_pos hA]
    all_goals
      unfold insertFood
      rw [if_neg (by simp [hne])]
      simp only []
      rw [hsw]
      try dsimp only
      try simp only [dif_pos hA]
      try rfl
  · refine ⟨{ s with
        empty := (s.empty.set (s.rng.genRange s.empty.length).1
          (s.empty.getLast?.getD s.empty[(s.rng.genRange s.empty.length).1])).dropLast },
      ?_, ?_, ?_, ?_, ?_⟩
    · unfold removeEmpty
      rw [hsw]
      dsimp only
      rw [if_pos rfl, dif_neg (by omega)]
    all_goals
      unfold insertFood
      rw [if_neg (by simp [hne])]
      simp only []
      rw [hsw]
      try dsimp only
      try simp only [dif_neg (show ¬ (s.rng.genRange s.empty.length).1 <
        ((s.empty.set (s.rng.genRange s.empty.length).1
          (s.empty.getLast?.getD s.empty[(s.rng.genRange s.empty.length).1])).dropLast).length
        by omega)]
      try rfl

theorem insertFood_valid {s : State} (hv : Valid s) : Valid (insertFood s) := by
  rcases eq_or_ne s.empty [] with hemp | hne
  · rw [insertFood_of_isEmpty hemp]
    exact hv
  · obtain ⟨s1, hrem, hb, he, hf, hsn⟩ := insertFood_via_removeEmpty hne
    obtain ⟨hv1, hnotE, hat1, hatE, hmem⟩ := removeEmpty_valid hv hrem
    have hd := removeEmpty_dims hrem
    have hnb : InBounds s.board (s.empty[(s.rng.genRange s.empty.length).1]?.getD (0, 0)) :=
      hv.2.2.2.2.1 _ hmem
    have hnb1 : InBounds s1.board (s.empty[(s.rng.genRange s.empty.length).1]?.getD (0, 0)) :=
      ⟨by rw [hd.1]; exact hnb.1, by rw [hd.2]; exact hnb.2⟩
    have hat1pos : s1.board.at' (s.empty[(s.rng.genRange s.empty.length).1]?.getD (0, 0)) =
        Cell.Empty ((s.rng.genRange s.empty.length).1) := by
      rw [hat1]
      exact hatE
    have hnotF : (s.empty[(s.rng.genRange s.empty.length).1]?.getD (0, 0)) ∉ s1.foods :=
      not_mem_foods hv1.2.2.1 (by rw [hat1pos]; simp [Cell.isFoodsCell])
    have hnotS : (s.empty[(s.rng.genRange s.empty.length).1]?.getD (0, 0)) ∉ s1.snake :=
      not_mem_snake hv1.2.2.2.1 (by rw [hat1pos]; simp [Cell.isSnakeCell])
    exact appendFoods_valid_aux hv1 hnb1 hnotE hnotF hnotS hb he hf hsn

/-! ### The turn transition: inversion and invariant preservation -/

theorem iterateTurn_some {d : Direction} {s : State} {st : Status} {s' : State}
    (h : iterateTurn d s = some (st, s')) :
    ∃ hd, s.snake.head? = some hd ∧
      ((∃ i, s.board.at' (s.board.moveIn hd d) = Cell.Empty i ∧
        ∃ s1, removeLastTail s = some s1 ∧
          ((s1.snake = [] ∧ st = Status.Ongoing ∧
             insertSnakeHead (s.board.moveIn hd d) none s1 = some s') ∨
           (s1.snake ≠ [] ∧ st = Status.Ongoing ∧
             ∃ s2 s3, updateNextTail s1 = some s2 ∧ updateLastHead d s2 = some s3 ∧
               insertSnakeHead (s.board.moveIn hd d) (some d.opposite) s3 = some s'))) ∨
       (∃ i, s.board.at' (s.board.moveIn hd d) = Cell.Foods i ∧
         ∃ s1 s2, updateLastHead d s = some s1 ∧
           insertSnakeHead (s.board.moveIn hd d) (some d.opposite) s1 = some s2 ∧
           s' = insertFood s2 ∧ st = checkIsWonStatus (insertFood s2)) ∨
       (∃ p, s.board.at' (s.board.moveIn hd d) = Cell.Snake p ∧
         st = Status.Over false ∧ s' = s)) := by
  unfold iterateTurn at h
  split at h
  · exact absurd h (by simp)
  next hd hL =>
    simp only [] at h
    refine ⟨hd, hL, ?_⟩
    split at h
    next i hC =>
      refine Or.inl ⟨i, hC, ?_⟩
      split at h
      · exact absurd h (by simp)
      next s1 h1 =>
        refine ⟨s1, h1, ?_⟩
        split at h
        next hemp =>
          split at h
          · exact absurd h (by simp)
          next s2 h2 =>
            rw [Option.some.injEq, Prod.mk.injEq] at h
            obtain ⟨hst, hs2⟩ := h
            exact Or.inl ⟨List.isEmpty_iff.mp hemp, hst.symm, hs2 ▸ h2⟩
        next hemp =>
          split at h
          · exact absurd h (by simp)
          next s2 h2 =>
            split at h
            · exact absurd h (by simp)
            next s3 h3 =>
              split at h
              · exact absurd h (by simp)
              next s4 h4 =>
                rw [Option.some.injEq, Prod.mk.injEq] at h
                obtain ⟨hst, hs4⟩ := h
                refine Or.inr ⟨fun hnil => hemp (by simp [hnil]), hst.symm,
                  s2, s3, h2, h3, hs4 ▸ h4⟩
    next i hC =>
      refine Or.inr (Or.inl ⟨i, hC, ?_⟩)
      split at h
      · exact absurd h (by simp)
      next s1 h1 =>
        split at h
        · exact absurd h (by simp)
        next s2 h2 =>
          rw [Option.some.injEq, Prod.mk.injEq] at h
          obtain ⟨hst, hs'⟩ := h
          exact ⟨s1, s2, h1, h2, hs'.symm, by rw [← hst]⟩
    next p hC =>
      rw [Option.some.injEq, Prod.mk.injEq] at h
      obtain ⟨hst, hs'⟩ := h
      exact Or.inr (Or.inr ⟨p, hC, hst.symm, hs'.symm⟩)

theorem iterateTurn_valid {d : Direction} {s : State} {st : Status} {s' : State}
    (hv : Valid s) (h : iterateTurn d s = some (st, s')) : Valid s' := by
  obtain ⟨hd, hL, hbr⟩ := iterateTurn_some h
  rcases hbr with ⟨i, hC, s1, h1, hrest⟩ | ⟨i, hC, s1, s2, h1, h2, hs', hst⟩ |
    ⟨p, hC, hst, hs'⟩
  · have hv1 := removeLastTail_valid hv h1
    rcases hrest with ⟨-, -, h2⟩ | ⟨-, -, s2, s3, h2, h3, h4⟩
    · exact insertSnakeHead_valid hv1 h2
    · exact insertSnakeHead_valid
        (updateLastHead_valid (updateNextTail_valid hv1 h2) h3) h4
  · subst hs'
    exact insertFood_valid (insertSnakeHead_valid (updateLastHead_valid hv h1) h2)
  · subst hs'
    exact hv

theorem reachable_valid {s0 s : State} (hv : Valid s0) (h : ReachableFrom s0 s) :
    Valid s := by
  induction h with
  | refl => exact hv
  | step _ hstep ih => exact iterateTurn_valid ih hstep

theorem removeLastTail_occupancy {s s' : State} (h : removeLastTail s = some s') :
    occupancy s' = occupancy s := by
  obtain ⟨t, pe, hL, -, -, he, hf, hsn, -⟩ := removeLastTail_some h
  obtain ⟨ys, hys⟩ := List.getLast?_eq_some_iff.mp hL
  unfold occupancy
  rw [he, hf, hsn, hys, List.dropLast_concat]
  simp [List.length_append]
  omega

theorem insertSnakeHead_occupancy {nh : Position} {e : Option Direction} {s s' : State}
    (h : insertSnakeHead nh e s = some s') : occupancy s' = occupancy s := by
  obtain ⟨s1, hrem, -, he, hf, hsn, -⟩ := insertSnakeHead_some h
  unfold occupancy
  rw [he, hf, hsn, List.length_cons]
  rcases hrem with ⟨i, -, hrem⟩ | ⟨i, -, hrem⟩
  · obtain ⟨rest, hsw, h1e, h1f, h1sn, -⟩ := removeEmpty_some hrem
    have hlen := swapRemove_length hsw
    rw [h1e, h1f, h1sn]
    omega
  · obtain ⟨rest, hsw, h1f, h1e, h1sn, -⟩ := removeFoods_some hrem
    have hlen := swapRemove_length hsw
    rw [h1e, h1f, h1sn]
    omega

theorem insertFood_occupancy (s : State) : occupancy (insertFood s) = occupancy s := by
  rcases eq_or_ne s.empty [] with hemp | hne
  · rw [insertFood_of_isEmpty hemp]
  · obtain ⟨x, rest, hsw, he, hf, hsn, -⟩ := insertFood_of_ne hne
    have hlen := swapRemove_length hsw
    unfold occupancy
    rw [he, hf, hsn, List.length_append, List.length_singleton]
    omega

theorem iterateTurn_occupancy {d : Direction} {s : State} {st : Status} {s' : State}
    (h : iterateTurn d s = some (st, s')) : occupancy s' = occupancy s := by
  obtain ⟨hd, hL, hbr⟩ := iterateTurn_some h
  rcases hbr with ⟨i, hC, s1, h1, hrest⟩ | ⟨i, hC, s1, s2, h1, h2, hs', hst⟩ |
    ⟨p, hC, hst, hs'⟩
  · have e1 := removeLastTail_occupancy h1
    rcases hrest with ⟨-, -, h2⟩ | ⟨-, -, s2, s3, h2, h3, h4⟩
    · rw [insertSnakeHead_occupancy h2, e1]
    · obtain ⟨-, -, -, -, -, h2e, h2f, h2sn, -⟩ := updateNextTail_some h2
      obtain ⟨-, -, -, -, -, h3e, h3f, h3sn, -⟩ := updateLastHead_some h3
      rw [insertSnakeHead_occupancy h4]
      unfold occupancy
      rw [h3e, h3f, h3sn, h2e, h2f, h2sn]
      exact e1
  · obtain ⟨-, -, -, -, -, h1e, h1f, h1sn, -⟩ := updateLastHead_some h1
    rw [hs', insertFood_occupancy, insertSnakeHead_occupancy h2]
    unfold occupancy
    rw [h1e, h1f, h1sn]
  · rw [hs']

theorem reachable_occupancy {s0 s : State} (h : ReachableFrom s0 s) :
    occupancy s = occupancy s0 := by
  induction h with
  | refl => rfl
  | step _ hstep ih => rw [iterateTurn_occupancy hstep, ih]

/-! Facts about the default board and its scans. -/

theorem enum_map_range {α : Type} (n : Nat) (f : Nat → α) :
    ((List.range n).map f).enum = (List.range n).map fun j => (j, f j) := by
  rw [List.enum_eq_zip_range, List.length_map, List.length_range]
  have h1 : List.range n = (List.range n).map id := (List.map_id _).symm
  calc (List.range n).zip ((List.range n).map f)
      = ((List.range n).map id).zip ((List.range n).map f) := by rw [← h1]
    _ = (List.range n).map fun j => (id j, f j) := List.zip_map' id f _
    _ = (List.range n).map fun j => (j, f j) := rfl

theorem defaultBoard_at {nR nC i j : Nat} (hi : i < nR) (hj : j < nC) :
    (defaultBoard nR nC).at' (i, j) = defaultCell nR nC i j := by
  rw [at'_eq]
  unfold defaultBoard
  simp only [List.getElem?_map, List.getElem?_range hi, Option.map_some',
    Option.getD_some, List.getElem?_range hj]

theorem defaultBoard_wf {nR nC : Nat} (hR : 0 < nR) (hC : 0 < nC) :
    BoardWF (defaultBoard nR nC) := by
  refine ⟨hR, hC, ?_, ?_⟩
  · simp [defaultBoard]
  · intro r hr
    unfold defaultBoard at hr
    simp only [List.mem_map] at hr
    obtain ⟨i, -, hr⟩ := hr
    simp [← hr, defaultBoard]

theorem range_filter_singleton {n k : Nat} (hk : k < n) {p : Nat → Bool}
    (hp : ∀ j, p j = true ↔ j = k) : (List.range n).filter p = [k] := by
  induction n with
  | zero => omega
  | succ n ih =>
    rw [List.range_succ, List.filter_append]
    rcases Nat.lt_or_ge k n with h | h
    · rw [ih h]
      have hn : p n = false := by
        rcases Bool.eq_false_or_eq_true (p n) with hb | hb
        · rw [hp] at hb
          omega
        · exact hb
      simp [hn]
    · have hkeq : k = n := by omega
      subst hkeq
      have hpre : (List.range k).filter p = [] := by
        rw [List.filter_eq_nil_iff]
        intro a ha hpa
        rw [hp] at hpa
        rw [List.mem_range] at ha
        omega
      simp [hpre, (hp k).mpr rfl]

theorem range_filter_length_ne {n k : Nat} (hk : k < n) {p : Nat → Bool}
    (hp : ∀ j, p j = true ↔ j ≠ k) :
    ((List.range n).filter p).length = n - 1 := by
  induction n with
  | zero => omega
  | succ n ih =>
    rw [List.range_succ, List.filter_append]
    rcases Nat.lt_or_ge k n with h | h
    · have hn : p n = true := (hp n).mpr (by omega)
      rw [List.length_append, ih h]
      simp [hn]
      omega
    · have hkeq : k = n := by omega
      subst hkeq
      have hpre : (List.range k).filter p = List.range k := by
        rw [List.filter_eq_self]
        intro a ha
        rw [List.mem_range] at ha
        exact (hp a).mpr (by omega)
      have hn : p k = false := by
        rcases Bool.eq_false_or_eq_true (p k) with hb | hb
        · rw [hp] at hb
          omega
        · exact hb
      rw [List.length_append, hpre]
      simp [hn]

theorem sum_map_range_const {n w : Nat} {f : Nat → Nat}
    (hf : ∀ i < n, f i = w) : ((List.range n).map f).sum = n * w := by
  induction n with
  | zero => simp
  | succ n ih =>
    rw [List.range_succ, List.map_append, List.sum_append,
      ih (fun i hi => hf i (by omega))]
    simp only [List.map_cons, List.map_nil, List.sum_cons, List.sum_nil]
    rw [hf n (by omega), Nat.succ_mul]
    omega

theorem sum_map_range_if {n c v w : Nat} (hc : c < n) {f : Nat → Nat}
    (hf : ∀ i, f i = if i = c then v else w) :
    ((List.range n).map f).sum = v + (n - 1) * w := by
  induction n with
  | zero => omega
  | succ n ih =>
    rw [List.range_succ, List.map_append, List.sum_append]
    rcases Nat.lt_or_ge c n with h | h
    · rw [ih h]
      simp only [List.map_cons, List.map_nil, List.sum_cons, List.sum_nil]
      rw [hf n, if_neg (by omega)]
      have hn1 : n - 1 + 1 = n := by omega
      have hstep : (n - 1) * w + w = n * w := by
        calc (n - 1) * w + w = (n - 1 + 1) * w := by rw [Nat.succ_mul]
          _ = n * w := by rw [hn1]
      simp only [Nat.add_sub_cancel]
      omega
    · have hceq : c = n := by omega
      subst hceq
      rw [sum_map_range_const (w := w) (fun i hi => by rw [hf i, if_neg (by omega)])]
      simp only [List.map_cons, List.map_nil, List.sum_cons, List.sum_nil]
      rw [hf c, if_pos rfl]
      simp only [Nat.add_sub_cancel]
      omega

theorem flatMap_range_single {α : Type} {n c : Nat} (hc : c < n) {g : Nat → List α}
    {l : List α} (hg : ∀ i, g i = if i = c then l else []) :
    (List.range n).flatMap g = l := by
  induction n with
  | zero => omega
  | succ n ih =>
    rw [List.range_succ, List.flatMap_append]
    rcases Nat.lt_or_ge c n with h | h
    · rw [ih h]
      have hn : g n = [] := by
        rw [hg n, if_neg (by omega)]
      simp [hn]
    · have hceq : c = n := by omega
      subst hceq
      have hpre : (List.range c).flatMap g = [] := by
        rw [List.flatMap_eq_nil_iff]
        intro a ha
        rw [List.mem_range] at ha
        rw [hg a, if_neg (by omega)]
      rw [hpre]
      simp [hg c]

theorem flatMap_range_length {α : Type} (n : Nat) (g : Nat → List α) :
    ((List.range n).flatMap g).length = ((List.range n).map fun i => (g i).length).sum := by
  induction n with
  | zero => simp
  | succ n ih =>
    rw [List.range_succ, List.flatMap_append, List.map_append, List.sum_append,
      List.length_append, ih]
    simp

/-- The three row-major scans of the default board, reduced to a flat map
over the index ranges. -/

theorem defaultBoard_scan (nR nC : Nat) (p : Cell → Bool) :
    ((defaultBoard nR nC).cells.enum.flatMap fun ir =>
      (ir.2.enum.filter fun jc => p jc.2).map fun jc => ((ir.1, jc.1) : Position)) =
    (List.range nR).flatMap fun i =>
      ((List.range nC).filter fun j => p (defaultCell nR nC i j)).map
        fun j => ((i, j) : Position) := by
  unfold defaultBoard
  simp only []
  rw [enum_map_range, List.flatMap_map]
  congr 1
  funext i
  simp only []
  rw [enum_map_range, List.filter_map, List.map_map]
  congr 1

theorem getFoods_defaultBoard (nR nC : Nat) : (defaultBoard nR nC).getFoods = [] := by
  unfold Board.getFoods
  rw [defaultBoard_scan, List.flatMap_eq_nil_iff]
  intro i hi
  have hfil : ((List.range nC).filter fun j => (defaultCell nR nC i j).isFoodsCell) = [] := by
    rw [List.filter_eq_nil_iff]
    intro j hj hcell
    unfold defaultCell at hcell
    split at hcell <;> simp [Cell.isFoodsCell] at hcell
  rw [hfil]
  rfl

theorem findSnakeHead_defaultBoard {nR nC : Nat} (hR : 0 < nR) (hC : 0 < nC) :
    (defaultBoard nR nC).findSnakeHead = some (nR / 2, nC / 2) := by
  unfold Board.findSnakeHead
  rw [defaultBoard_scan]
  have hcr : nR / 2 < nR := Nat.div_lt_self hR (by omega)
  have hcc : nC / 2 < nC := Nat.div_lt_self hC (by omega)
  have hg : ∀ i, ((List.range nC).filter fun j =>
      (defaultCell nR nC i j).isHeadCell).map (fun j => ((i, j) : Position)) =
      if i = nR / 2 then [((nR / 2, nC / 2) : Position)] else [] := by
    intro i
    rcases eq_or_ne i (nR / 2) with hi | hi
    · subst hi
      rw [if_pos rfl,
        range_filter_singleton hcc (p := fun j => (defaultCell nR nC (nR / 2) j).isHeadCell)]
      · rfl
      · intro j
        unfold defaultCell
        rcases eq_or_ne j (nC / 2) with hj | hj
        · subst hj
          rw [if_pos ⟨rfl, rfl⟩]
          simp [Cell.isHeadCell]
        · rw [if_neg (by tauto)]
          simp [Cell.isHeadCell, hj]
    · rw [if_neg hi]
      have hfil : ((List.range nC).filter fun j =>
          (defaultCell nR nC i j).isHeadCell) = [] := by
        rw [List.filter_eq_nil_iff]
        intro j hj hcell
        unfold defaultCell at hcell
        rw [if_neg (by tauto)] at hcell
        simp [Cell.isHeadCell] at hcell
      rw [hfil]
      rfl
  rw [flatMap_range_single hcr hg]
  rfl

theorem getEmpty_defaultBoard_length {nR nC : Nat} (hR : 0 < nR) (hC : 0 < nC) :
    (defaultBoard nR nC).getEmpty.length = nR * nC - 1 := by
  unfold Board.getEmpty
  rw [defaultBoard_scan, flatMap_range_length]
  have hcr : nR / 2 < nR := Nat.div_lt_self hR (by omega)
  have hcc : nC / 2 < nC := Nat.div_lt_self hC (by omega)
  have hf : ∀ i, (((List.range nC).filter fun j =>
      (defaultCell nR nC i j).isEmptyCell).map (fun j => ((i, j) : Position))).length =
      if i = nR / 2 then nC - 1 else nC := by
    intro i
    rw [List.length_map]
    rcases eq_or_ne i (nR / 2) with hi | hi
    · subst hi
      rw [if_pos rfl]
      refine range_filter_length_ne hcc ?_
      intro j
      unfold defaultCell
      rcases eq_or_ne j (nC / 2) with hj | hj
      · subst hj
        rw [if_pos ⟨rfl, rfl⟩]
        simp [Cell.isEmptyCell]
      · rw [if_neg (by tauto)]
        simp [Cell.isEmptyCell, hj]
    · rw [if_neg hi]
      have hfil : ((List.range nC).filter fun j =>
          (defaultCell nR nC i j).isEmptyCell) = List.range nC := by
        rw [List.filter_eq_self]
        intro j hj
        unfold defaultCell
        rw [if_neg (by tauto)]
        simp [Cell.isEmptyCell]
      rw [hfil, List.length_range]
  rw [sum_map_range_if hcr hf]
  have hmul : (nR - 1) * nC = nR * nC - nC := by
    rw [Nat.sub_one_mul]
  have hle : nC ≤ nR * nC := Nat.le_mul_of_pos_left nC hR
  omega

theorem getSnake_defaultBoard {nR nC : Nat} (hR : 0 < nR) (hC : 0 < nC) :
    (defaultBoard nR nC).getSnake = some [((nR / 2, nC / 2) : Position)] := by
  have hcr : nR / 2 < nR := Nat.div_lt_self hR (by omega)
  have hcc : nC / 2 < nC := Nat.div_lt_self hC (by omega)
  unfold Board.getSnake
  rw [findSnakeHead_defaultBoard hR hC]
  show (defaultBoard nR nC).getSnakeAux ((defaultBoard nR nC).nRows * (defaultBoard nR nC).nCols + 1)
    (nR / 2, nC / 2) [(nR / 2, nC / 2)] = some [(nR / 2, nC / 2)]
  unfold Board.getSnakeAux
  rw [defaultBoard_at hcr hcc]
  unfold defaultCell
  rw [if_pos ⟨rfl, rfl⟩]

theorem addFoods_success : ∀ (n : Nat) (s : State), n ≤ s.empty.length →
    ∃ s', addFoods n s = some s' ∧ occupancy s' = occupancy s := by
  intro n
  induction n with
  | zero => exact fun s _ => ⟨s, rfl, rfl⟩
  | succ n ih =>
    intro s hle
    have hne : s.empty ≠ [] := by
      intro hnil
      rw [hnil] at hle
      simp at hle
    obtain ⟨x, rest, hsw, he, -, -, -⟩ := insertFood_of_ne hne
    have hlen := swapRemove_length hsw
    have hle2 : n ≤ (insertFood s).empty.length := by
      rw [he]
      omega
    obtain ⟨s', hs', hocc⟩ := ih (insertFood s) hle2
    refine ⟨s', ?_, ?_⟩
    · unfold addFoods
      rw [if_neg (by simp [hne])]
      exact hs'
    · rw [hocc, insertFood_occupancy]

theorem fromOptions_success {o : Options} (hv : o.IsValid) :
    ∃ s0, o.fromOptions = some s0 ∧ occupancy s0 = o.nRows * o.nCols := by
  have harea : 1 ≤ o.nRows * o.nCols := le_trans (by omega) hv
  have hR : 0 < o.nRows := by
    rcases Nat.eq_zero_or_pos o.nRows with h0 | h
    · rw [h0, Nat.zero_mul] at harea
      omega
    · exact h
  have hC : 0 < o.nCols := by
    rcases Nat.eq_zero_or_pos o.nCols with h0 | h
    · rw [h0, Nat.mul_zero] at harea
      omega
    · exact h
  have hnew : State.new (defaultBoard o.nRows o.nCols) ⟨o.seq, 0⟩ =
      some { board := defaultBoard o.nRows o.nCols,
             empty := (defaultBoard o.nRows o.nCols).getEmpty,
             foods := (defaultBoard o.nRows o.nCols).getFoods,
             snake := [((o.nRows / 2, o.nCols / 2) : Position)],
             rng := ⟨o.seq, 0⟩, events := [] } := by
    unfold State.new
    rw [getSnake_defaultBoard hR hC]
  have hle : o.nFoods ≤ (defaultBoard o.nRows o.nCols).getEmpty.length := by
    rw [getEmpty_defaultBoard_length hR hC]
    unfold Options.IsValid at hv
    omega
  obtain ⟨s0, hs0, hocc⟩ := addFoods_success o.nFoods
    { board := defaultBoard o.nRows o.nCols,
      empty := (defaultBoard o.nRows o.nCols).getEmpty,
      foods := (defaultBoard o.nRows o.nCols).getFoods,
      snake := [((o.nRows / 2, o.nCols / 2) : Position)],
      rng := ⟨o.seq, 0⟩, events := [] } (by exact hle)
  refine ⟨s0, ?_, ?_⟩
  · unfold Options.fromOptions
    rw [hnew]
    exact hs0
  · rw [hocc]
    unfold occupancy
    simp only [getFoods_defaultBoard, List.length_nil, List.length_cons, List.length_nil]
    rw [getEmpty_defaultBoard_length hR hC]
    omega

/-! ### Toroidal movement: move_in agrees with signed displacement taken
modulo each bound -/

theorem checkedAddSigned_zero (x : Nat) : checkedAddSigned x 0 = some x := by
  unfold checkedAddSigned
  rw [if_neg (by omega)]
  congr 1

theorem checkedAddSigned_one (x : Nat) : checkedAddSigned x 1 = some (x + 1) := by
  unfold checkedAddSigned
  rw [if_neg (by omega)]
  congr 1

theorem checkedAddSigned_negOne_zero : checkedAddSigned 0 (-1) = none := by
  unfold checkedAddSigned
  rw [if_pos (by omega)]

theorem checkedAddSigned_negOne_succ (k : Nat) :
    checkedAddSigned (k + 1) (-1) = some k := by
  unfold checkedAddSigned
  rw [if_neg (by omega)]
  congr 1
  omega

theorem intMod_toNat (a n : Nat) : (((a : Int)) % (n : Int)).toNat = a % n := by
  rw [← Int.ofNat_emod]
  exact Int.toNat_natCast _

theorem intMod_negOne {n : Nat} (hn : 0 < n) :
    ((-1 : Int) % (n : Int)) = ((n : Int) - 1) := by
  rw [show (-1 : Int) = ((n : Int) - 1) + (n : Int) * (-1) by ring,
    Int.add_mul_emod_self_left, Int.emod_eq_of_lt (by omega) (by omega)]

/-- Board::move_in computes, on every on-board position, exactly the
position displaced by the direction's unit velocity with each axis taken
modulo its bound (in signed arithmetic, so Up from row 0 lands on the last
row and Left from column 0 on the last column). -/

theorem moveIn_eq_mod {b : Board} {i j : Nat} (d : Direction)
    (hi : i < b.nRows) (hj : j < b.nCols) :
    b.moveIn (i, j) d =
      ((((i : Int) + d.asVelocity.1) % (b.nRows : Int)).toNat,
       (((j : Int) + d.asVelocity.2) % (b.nCols : Int)).toNat) := by
  have hR : 0 < b.nRows := by omega
  have hC : 0 < b.nCols := by omega
  cases d with
  | Right =>
    unfold Board.moveIn Direction.asVelocity
    dsimp only
    rw [checkedAddSigned_zero, checkedAddSigned_one]
    simp only [Option.getD_some]
    refine Prod.ext ?_ ?_
    · show i % b.nRows = (((i : Int) + 0) % (b.nRows : Int)).toNat
      rw [Int.add_zero, intMod_toNat]
    · show (j + 1) % b.nCols = (((j : Int) + 1) % (b.nCols : Int)).toNat
      rw [show ((j : Int) + 1) = ((j + 1 : Nat) : Int) by omega, intMod_toNat]
  | Down =>
    unfold Board.moveIn Direction.asVelocity
    dsimp only
    rw [checkedAddSigned_zero, checkedAddSigned_one]
    simp only [Option.getD_some]
    refine Prod.ext ?_ ?_
    · show (i + 1) % b.nRows = (((i : Int) + 1) % (b.nRows : Int)).toNat
      rw [show ((i : Int) + 1) = ((i + 1 : Nat) : Int) by omega, intMod_toNat]
    · show j % b.nCols = (((j : Int) + 0) % (b.nCols : Int)).toNat
      rw [Int.add_zero, intMod_toNat]
  | Up =>
    unfold Board.moveIn Direction.asVelocity
    dsimp only
    rw [checkedAddSigned_zero]
    simp only [Option.getD_some]
    refine Prod.ext ?_ ?_
    · show ((checkedAddSigned i (-1)).getD (b.nRows - 1)) % b.nRows =
        (((i : Int) + -1) % (b.nRows : Int)).toNat
      cases i with
      | zero =>
        rw [checkedAddSigned_negOne_zero]
        simp only [Option.getD_none]
        rw [show ((0 : Nat) : Int) + -1 = (-1 : Int) by omega, intMod_negOne hR]
        rw [Nat.mod_eq_of_lt (by omega)]
        omega
      | succ k =>
        rw [checkedAddSigned_negOne_succ]
        simp only [Option.getD_some]
        rw [show ((k + 1 : Nat) : Int) + -1 = ((k : Nat) : Int) by omega, intMod_toNat]
    · show j % b.nCols = (((j : Int) + 0) % (b.nCols : Int)).toNat
      rw [Int.add_zero, intMod_toNat]
  | Left =>
    unfold Board.moveIn Direction.asVelocity
    dsimp only
    rw [checkedAddSigned_zero]
    simp only [Option.getD_some]
    refine Prod.ext ?_ ?_
    · show i % b.nRows = (((i : Int) + 0) % (b.nRows : Int)).toNat
      rw [Int.add_zero, intMod_toNat]
    · show ((checkedAddSigned j (-1)).getD (b.nCols - 1)) % b.nCols =
        (((j : Int) + -1) % (b.nCols : Int)).toNat
      cases j with
      | zero =>
        rw [checkedAddSigned_negOne_zero]
        simp only [Option.getD_none]
        rw [show ((0 : Nat) : Int) + -1 = (-1 : Int) by omega, intMod_negOne hC]
        rw [Nat.mod_eq_of_lt (by omega)]
        omega
      | succ k =>
        rw [checkedAddSigned_negOne_succ]
        simp only [Option.getD_some]
        rw [show ((k + 1 : Nat) : Int) + -1 = ((k : Nat) : Int) by omega, intMod_toNat]

/-- The self-collision branch of iterate_turn: status Over with is_won
hard-coded to false, and no component of the state touched. -/

theorem iterateTurn_snake_branch {d : Direction} {s : State} {hd : Position} {p : Path}
    (hL : s.snake.head? = some hd)
    (hC : s.board.at' (s.board.moveIn hd d) = Cell.Snake p) :
    iterateTurn d s = some (Status.Over false, s) := by
  unfold iterateTurn
  rw [hL]
  dsimp only
  rw [hC]

/-! ### The claims -/

/-- C1 counterexample: on the 1x2 board fully occupied by the snake (which
satisfies every board invariant, with empty and foods both empty), a turn
into a snake cell returns Over with is_won = false, not the claimed
is_won = empty.is_empty() && foods.is_empty() = true. -/

theorem C1_counterexample :
    Valid sWin ∧ (sWin.empty.isEmpty && sWin.foods.isEmpty) = true ∧
      iterateTurn Direction.Right sWin = some (Status.Over false, sWin) ∧
      Status.Over false ≠ Status.Over (sWin.empty.isEmpty && sWin.foods.isEmpty) :=
  ⟨by decide, by decide, rfl, by decide⟩

/-- C1 (amended): for every state satisfying the board invariants whose
next head cell is a Snake cell, iterate_turn returns the terminal status
Over with is_won = false unconditionally (in particular, when at least one
empty or food cell remains the result is Over with is_won = false, as the
claim states). -/

theorem C1_snake_is_over {d : Direction} {s : State} {hd : Position} {p : Path}
    (hv : Valid s) (hL : s.snake.head? = some hd)
    (hC : s.board.at' (s.board.moveIn hd d) = Cell.Snake p) :
    iterateTurn d s = some (Status.Over false, s) :=
  iterateTurn_snake_branch hL hC

/-- C1 witness: the loosable 2x3 board moving Up into the snake body. -/

theorem C1_witness : iterateTurn Direction.Up sLoose = some (Status.Over false, sLoose) :=
  C1_snake_is_over (by decide) rfl rfl

/-- C2: every state reachable from a state satisfying the board invariants
by iterate_turn steps keeps them: board.at(empty[i]) = Empty(i),
board.at(foods[i]) = Foods(i), and every snake-body position holds a Snake
cell; moreover each swap-remove patches the back-reference of the element
moved into the vacated slot (the removal lemmas below), and the tail
converted by remove_last_tail becomes Empty at index equal to the prior
length of the empty list, pushed at its back. -/

theorem C2_invariants :
    (∀ s0 s, Valid s0 → ReachableFrom s0 s →
      (∀ i (h : i < s.empty.length), s.board.at' s.empty[i] = Cell.Empty i) ∧
      (∀ i (h : i < s.foods.length), s.board.at' s.foods[i] = Cell.Foods i) ∧
      (∀ p ∈ s.snake, (s.board.at' p).isSnakeCell = true)) ∧
    (∀ s s' t, Valid s → removeLastTail s = some s' → s.snake.getLast? = some t →
      s'.empty = s.empty ++ [t] ∧ s'.board.at' t = Cell.Empty s.empty.length) ∧
    (∀ nh i s s', Valid s → removeEmpty nh i s = some s' →
      ∀ (h : i < s'.empty.length), s'.board.at' s'.empty[i] = Cell.Empty i) ∧
    (∀ nh i s s', Valid s → removeFoods nh i s = some s' →
      ∀ (h : i < s'.foods.length), s'.board.at' s'.foods[i] = Cell.Foods i) := by
  refine ⟨?_, ?_, ?_, ?_⟩
  · intro s0 s hv hr
    have hvs := reachable_valid hv hr
    exact ⟨hvs.2.1, hvs.2.2.1, hvs.2.2.2.1⟩
  · intro s s' t hv h hL
    obtain ⟨t2, pe, hL2, hC, hb, he, -, -, -⟩ := removeLastTail_some h
    rw [hL] at hL2
    injection hL2 with hL2
    subst hL2
    obtain ⟨ys, hys⟩ := List.getLast?_eq_some_iff.mp hL
    have htmem : t ∈ s.snake := by
      rw [hys]
      exact List.mem_append_right _ (by simp)
    refine ⟨he, ?_⟩
    rw [hb]
    exact at'_setCell_self _ hv.1 (hv.2.2.2.2.2.2.1 t htmem)
  · intro nh i s s' hv h hlt
    exact (removeEmpty_valid hv h).1.2.1 i hlt
  · intro nh i s s' hv h hlt
    exact (removeFoods_valid hv h).1.2.2.1 i hlt

/-- C2 witness: the empty-list back-reference of the loosable board, read
through the invariant theorem after one actual iterate_turn step. -/

theorem C2_witness : sLoose.board.at' (1, 2) = Cell.Empty 0 := by
  have h := ((C2_invariants.1 sLoose sLoose (by decide)
    (ReachableFrom.step ReachableFrom.refl
      (show iterateTurn Direction.Up sLoose = some (Status.Over false, sLoose)
        from rfl))).1) 0 (by decide)
  exact h

/-- C3: from any state Options::build constructs, every reachable state
occupies exactly N_ROWS * N_COLS cells across the three lists, and the sum
is preserved by every iterate_turn call and every insert_food call. -/

theorem C3_partition :
    ∀ (o : Options) (s0 : State), o.build = Except.ok (some s0) →
      ∀ s, ReachableFrom s0 s →
        occupancy s = o.nRows * o.nCols ∧
        (∀ d st s', iterateTurn d s = some (st, s') → occupancy s' = occupancy s) ∧
        occupancy (insertFood s) = occupancy s := by
  intro o s0 hbuild s hr
  have hocc0 : occupancy s0 = o.nRows * o.nCols := by
    by_cases hv : o.IsValid
    · unfold Options.build at hbuild
      rw [if_pos hv] at hbuild
      injection hbuild with hbuild
      obtain ⟨s0', hs0', hocc⟩ := fromOptions_success hv
      rw [hbuild] at hs0'
      injection hs0' with hs0'
      rw [hs0']
      exact hocc
    · unfold Options.build at hbuild
      rw [if_neg hv] at hbuild
      exact absurd hbuild (by simp)
  exact ⟨by rw [reachable_occupancy hr, hocc0],
    fun d st s' hstep => iterateTurn_occupancy hstep,
    insertFood_occupancy s⟩

/-- C3 witness: the built 1x2 state with one food occupies both cells. -/

theorem C3_witness : occupancy s0Build = 1 * 2 ∧ occupancy (insertFood s0Build) = occupancy s0Build :=
  ⟨(C3_partition oTwo s0Build rfl s0Build ReachableFrom.refl).1,
   (C3_partition oTwo s0Build rfl s0Build ReachableFrom.refl).2.2⟩

/-- C4: in the status-carrying revision (src/lib.rs), once a turn has left
the game with status Over, every further iterate_turn call returns the
distinguished GameIsOver signal and leaves the state entirely unchanged. -/

theorem C4_terminal {s : Lib.GameState} {r : Except Lib.GameIsOver Unit}
    {s' : Lib.GameState} {iw : Bool}
    (hrun : Lib.iterateTurn s = some (r, s'))
    (hover : s'.status = Status.Over iw) :
    Lib.iterateTurn s' = some (Except.error ⟨⟩, s') := by
  unfold Lib.iterateTurn Lib.checkStatus
  rw [hover]

/-- C4 witness: the 1x2 all-snake lib state; the collision turn ends the
game, and the next call reports GameIsOver without touching the state. -/

theorem C4_witness : Lib.iterateTurn lWinOver = some (Except.error ⟨⟩, lWinOver) :=
  C4_terminal (show Lib.iterateTurn lWin = some (Except.ok (), lWinOver) from rfl) rfl

/-- C5: when the next head cell holds food, iterate_turn returns Ongoing
unless, after the replacement food placement, both the empty and the food
lists are empty, in which case it returns Over with is_won = true. -/

theorem C5_food_outcome {d : Direction} {s : State} {st : Status} {s' : State}
    {hd : Position} {k : Nat}
    (hL : s.snake.head? = some hd)
    (hC : s.board.at' (s.board.moveIn hd d) = Cell.Foods k)
    (hrun : iterateTurn d s = some (st, s')) :
    st = if s'.foods.isEmpty && s'.empty.isEmpty then Status.Over true
         else Status.Ongoing := by
  obtain ⟨hd2, hL2, hbr⟩ := iterateTurn_some hrun
  rw [hL] at hL2
  injection hL2 with hL2
  subst hL2
  rcases hbr with ⟨i, hCE, -⟩ | ⟨i, hCF, s1, s2, -, -, hs', hst⟩ | ⟨p, hCS, -, -⟩
  · rw [hC] at hCE
    exact absurd hCE (by simp)
  · subst hs'
    rw [hst]
    rfl
  · rw [hC] at hCS
    exact absurd hCS (by simp)

/-- C5 witness: the built 1x2 board with one food item reaches Over with
is_won = true in exactly one turn, matching the branch characterization. -/

theorem C5_witness :
    Status.Over true =
      if s1Build.foods.isEmpty && s1Build.empty.isEmpty then Status.Over true
      else Status.Ongoing :=
  @C5_food_outcome Direction.Right s0Build (Status.Over true) s1Build (0, 1) 0
    (by rfl) (by rfl)
    (show iterateTurn Direction.Right s0Build = some (Status.Over true, s1Build) from rfl)

/-- C6 counterexample: on a valid 1x3 state with one empty cell and one
food, the food-eating turn places a replacement food, which removes the
drawn position from the empty list: empty.len() drops from 1 to 0, against
the claim that it does not decrease. -/

theorem C6_counterexample :
    Valid sFood ∧
      sFood.board.at' (sFood.board.moveIn (0, 1) Direction.Right) = Cell.Foods 0 ∧
      iterateTurn Direction.Right sFood = some (Status.Ongoing, sFoodAfter) ∧
      sFoodAfter.empty.length < sFood.empty.length :=
  ⟨by decide, by decide, rfl, by decide⟩

/-- C6 (amended): a turn onto a Food cell increases snake.len() by exactly
one, and empty.len() decreases by exactly one when a replacement food is
placed (empty nonempty) and is unchanged when no empty cell remained; a
turn onto an Empty cell keeps snake.len() and shifts the body by exactly
one position: the new body is the next head consed onto the old body
without its tail. -/

theorem C6_growth {d : Direction} {s : State} {st : Status} {s' : State} {hd : Position}
    (hv : Valid s) (hL : s.snake.head? = some hd)
    (hrun : iterateTurn d s = some (st, s')) :
    (∀ k, s.board.at' (s.board.moveIn hd d) = Cell.Foods k →
      s'.snake.length = s.snake.length + 1 ∧
      (s.empty ≠ [] → s'.empty.length + 1 = s.empty.length) ∧
      (s.empty = [] → s'.empty = s.empty)) ∧
    (∀ k, s.board.at' (s.board.moveIn hd d) = Cell.Empty k →
      s'.snake.length = s.snake.length ∧
      s'.snake = s.board.moveIn hd d :: s.snake.dropLast) := by
  obtain ⟨hd2, hL2, hbr⟩ := iterateTurn_some hrun
  rw [hL] at hL2
  injection hL2 with hL2
  subst hL2
  constructor
  · intro k hC
    rcases hbr with ⟨i, hCE, -⟩ | ⟨i, hCF, s1, s2, h1, h2, hs', -⟩ | ⟨p, hCS, -, -⟩
    · rw [hC] at hCE
      exact absurd hCE (by simp)
    · obtain ⟨-, -, -, -, -, h1e, h1f, h1sn, -⟩ := updateLastHead_some h1
      obtain ⟨s1b, hrem, -, h2e, -, h2sn, -⟩ := insertSnakeHead_some h2
      have hnh_at : s1.board.at' (s.board.moveIn hd d) = Cell.Foods k := by
        obtain ⟨hd3, e, hL3, hC3, hb3, -, -, -, -⟩ := updateLastHead_some h1
        rw [hL] at hL3
        injection hL3 with hL3
        subst hL3
        rw [hb3, at'_setCell_ne _ (ne_of_at'_ne (by rw [hC, hC3]; simp))]
        exact hC
      rcases hrem with ⟨i2, hC2, hrem⟩ | ⟨i2, hC2, hrem⟩
      · rw [hnh_at] at hC2
        exact absurd hC2 (by simp)
      · obtain ⟨rest, hsw, h3f, h3e, h3sn, -⟩ := removeFoods_some hrem
        have hempty2 : s2.empty = s.empty := by
          rw [h2e, h3e, h1e]
        have hsnake2 : s2.snake = (s.board.moveIn hd d) :: s.snake := by
          rw [h2sn, h3sn, h1sn]
        subst hs'
        rcases eq_or_ne s2.empty [] with hemp | hne2
        · rw [insertFood_of_isEmpty hemp]
          refine ⟨by rw [hsnake2, List.length_cons], ?_, ?_⟩
          · intro hne3
            rw [hempty2] at hemp
            exact absurd hemp hne3
          · intro h0
            exact hempty2
        · obtain ⟨x, rest2, hsw2, hfe, -, hfsn, -⟩ := insertFood_of_ne hne2
          have hlen2 := swapRemove_length hsw2
          refine ⟨?_, ?_, ?_⟩
          · rw [hfsn, hsnake2, List.length_cons]
          · intro hne3
            rw [hfe, ← hempty2]
            omega
          · intro h0
            rw [hempty2] at hne2
            exact absurd h0 hne2
    · rw [hC] at hCS
      exact absurd hCS (by simp)
  · intro k hC
    rcases hbr with ⟨i, hCE, s1, h1, hrest⟩ | ⟨i, hCF, s1, s2, -, -, -, -⟩ | ⟨p, hCS, -, -⟩
    · obtain ⟨t, pe, hLt, -, -, -, -, h1sn, -⟩ := removeLastTail_some h1
      have hne_snake : s.snake ≠ [] := by
        intro hnil
        rw [hnil] at hL
        exact absurd hL (by simp)
      have hlen1 : s.snake.dropLast.length + 1 = s.snake.length := by
        rw [List.length_dropLast]
        have : 0 < s.snake.length := List.length_pos.mpr hne_snake
        omega
      rcases hrest with ⟨-, -, h2⟩ | ⟨-, -, s2, s3, h2, h3, h4⟩
      · obtain ⟨s1b, hrem, -, -, -, h2sn, -⟩ := insertSnakeHead_some h2
        have hsnb : s1b.snake = s1.snake := by
          rcases hrem with ⟨i2, -, hrem⟩ | ⟨i2, -, hrem⟩
          · obtain ⟨rest2, -, -, -, hsna, -, -, -, -⟩ := removeEmpty_some hrem
            exact hsna
          · obtain ⟨rest2, -, -, -, hsna, -, -, -, -⟩ := removeFoods_some hrem
            exact hsna
        refine ⟨?_, ?_⟩
        · rw [h2sn, List.length_cons, hsnb, h1sn]
          omega
        · rw [h2sn, hsnb, h1sn]
      · obtain ⟨-, -, -, -, -, -, -, h2sn, -⟩ := updateNextTail_some h2
        obtain ⟨-, -, -, -, -, -, -, h3sn, -⟩ := updateLastHead_some h3
        obtain ⟨s3b, hrem4, -, -, -, h4sn, -⟩ := insertSnakeHead_some h4
        have hsnb4 : s3b.snake = s3.snake := by
          rcases hrem4 with ⟨i2, -, hrem4⟩ | ⟨i2, -, hrem4⟩
          · obtain ⟨rest2, -, -, -, hsna, -, -, -, -⟩ := removeEmpty_some hrem4
            exact hsna
          · obtain ⟨rest2, -, -, -, hsna, -, -, -, -⟩ := removeFoods_some hrem4
            exact hsna
        refine ⟨?_, ?_⟩
        · rw [h4sn, List.length_cons, hsnb4, h3sn, h2sn, h1sn]
          omega
        · rw [h4sn, hsnb4, h3sn, h2sn, h1sn]
    · rw [hC] at hCF
      exact absurd hCF (by simp)
    · rw [hC] at hCS
      exact absurd hCS (by simp)

/-- C6 witness: on the 1x3 state, eating the food grows the snake by one
and shrinks the empty list by one. -/

theorem C6_witness :
    sFoodAfter.snake.length = sFood.snake.length + 1 ∧
      sFoodAfter.empty.length + 1 = sFood.empty.length := by
  have h := (@C6_growth Direction.Right sFood Status.Ongoing sFoodAfter (0, 1)
    (by decide) (by rfl)
    (show iterateTurn Direction.Right sFood = some (Status.Ongoing, sFoodAfter)
      from rfl)).1 0 (by rfl)
  exact ⟨h.1, h.2.1 (by decide)⟩

/-- C7: on every on-board position, move_in is the displacement by the
direction's unit velocity with each axis taken modulo its bound in signed
arithmetic (so Up from row 0 lands on row N_ROWS - 1 in the same column,
and symmetrically at every edge); it returns a fresh position and touches
nothing. -/

theorem C7_moveIn {b : Board} {i j : Nat} (d : Direction)
    (hi : i < b.nRows) (hj : j < b.nCols) :
    b.moveIn (i, j) d =
      ((((i : Int) + d.asVelocity.1) % (b.nRows : Int)).toNat,
       (((j : Int) + d.asVelocity.2) % (b.nCols : Int)).toNat) :=
  moveIn_eq_mod d hi hj

/-- C7 witness: moving Up from row 0 of a 3x4 board lands on row 2, same
column. -/

theorem C7_witness : (⟨3, 4, []⟩ : Board).moveIn (0, 2) Direction.Up = (2, 2) := by
  rw [C7_moveIn Direction.Up (by decide) (by decide)]
  decide

/-- C8: Options::build returns Err(InvalidOptions) exactly when
n_rows * n_cols < n_foods + 1, and otherwise returns Ok carrying a fully
constructed game state (construction succeeds: head found, body walked,
all requested foods placed). -/

theorem C8_options :
    ∀ o : Options, (o.build = Except.error ⟨⟩ ↔ o.nRows * o.nCols < o.nFoods + 1) ∧
      (o.nFoods + 1 ≤ o.nRows * o.nCols → ∃ s, o.build = Except.ok (some s)) := by
  intro o
  constructor
  · constructor
    · intro hb
      by_contra hlt
      unfold Options.build at hb
      rw [if_pos (show o.IsValid from by unfold Options.IsValid; omega)] at hb
      exact absurd hb (by simp)
    · intro hlt
      unfold Options.build
      rw [if_neg (show ¬ o.IsValid from by unfold Options.IsValid; omega)]
  · intro hv
    obtain ⟨s0, hs0, -⟩ := fromOptions_success (show o.IsValid from hv)
    refine ⟨s0, ?_⟩
    unfold Options.build
    rw [if_pos (show o.IsValid from hv), hs0]

/-- C8 witness: nine foods do not fit a 3x3 board; one food fits a 1x2
board and build returns the constructed state. -/

theorem C8_witness :
    Options.build ⟨3, 3, 9, zeroSeq⟩ = Except.error ⟨⟩ ∧
      Options.build ⟨1, 2, 1, zeroSeq⟩ = Except.ok (some s0Build) :=
  ⟨(C8_options ⟨3, 3, 9, zeroSeq⟩).1.mpr (by decide), rfl⟩

/-- C9: with a current heading, a requested heading is accepted exactly
when its plane differs from the current heading's plane; a rejected
request returns InvalidDirection and leaves the whole state (heading and
board included) unchanged, while an accepted one changes only the
velocity. -/

theorem C9_direction {s : Lib.GameState} {cur d : Direction}
    (hvel : s.velocity = Lib.fromDirection cur) :
    (d.getPlane ≠ cur.getPlane →
      Lib.setDirection d s = (Except.ok (), { s with velocity := Lib.fromDirection d })) ∧
    (d.getPlane = cur.getPlane →
      Lib.setDirection d s = (Except.error ⟨⟩, s)) := by
  constructor
  · intro hne
    unfold Lib.setDirection
    rw [hvel]
    revert hne
    cases d <;> cases cur <;> intro hne <;>
      first
        | rfl
        | exact absurd rfl hne
  · intro heq
    unfold Lib.setDirection
    rw [hvel]
    revert heq
    cases d <;> cases cur <;> intro heq <;>
      first
        | rfl
        | exact absurd heq (by decide)

/-- C9 witness: heading Up, Down is rejected with the heading kept, Left
is accepted. -/

theorem C9_witness :
    Lib.setDirection Direction.Down lUp = (Except.error ⟨⟩, lUp) ∧
      Lib.setDirection Direction.Left lUp =
        (Except.ok (), { lUp with velocity := Lib.fromDirection Direction.Left }) :=
  ⟨(@C9_direction lUp Direction.Up Direction.Down rfl).2 (by decide),
   (@C9_direction lUp Direction.Up Direction.Left rfl).1 (by decide)⟩

/-- C10: when the next head cell is a Snake cell, iterate_turn returns
Over with is_won = false and the returned state is the input state itself:
board, empty list, food list, body, random generator and the recorded View
notifications are all untouched. -/

theorem C10_frame {d : Direction} {s : State} {hd : Position} {p : Path}
    (hL : s.snake.head? = some hd)
    (hC : s.board.at' (s.board.moveIn hd d) = Cell.Snake p) :
    iterateTurn d s = some (Status.Over false, s) :=
  iterateTurn_snake_branch hL hC

/-- C10 witness: the 1x2 all-snake state collides without any mutation. -/

theorem C10_witness : iterateTurn Direction.Right sWin = some (Status.Over false, sWin) :=
  C10_frame rfl rfl

end SnakeGame
